import Mathlib

/-!
Verification of the Confluence→VuePress migrator core (`src/migrator.js`).

The JavaScript source operates on strings via ordered regex substitutions.
We embed strings as `List Char` and each regex rule as an executable scanner
that reproduces the JS `String.prototype.replace` semantics for the concrete
patterns appearing in the source: global scanning advances one character on a
failed match attempt and past the whole match on success; lazy `[\s\S]*?`
quantifiers take the earliest position at which the rest of the pattern
matches (retrying later positions when the continuation fails, which models
regex backtracking); greedy `[^>]*` runs extend to the first `>` (they cannot
cross it); the `i` flag is modelled by ASCII case folding, matching the
ASCII-only patterns of the source.
-/

set_option maxRecDepth 20000

namespace ConfluenceMigrator

/-- Strings are modelled as lists of characters. -/
abbrev Cs := List Char

/-- The backtick character (used by the escaping pass's inline-code wrapping). -/
def btCh : Char := Char.ofNat 96

/-- The single-quote character (used in `$'` replacement patterns). -/
def aposCh : Char := Char.ofNat 39

/-- ASCII lower-casing of one character, as performed by `toLowerCase()` on
ASCII input and by the `i` regex flag's case folding. -/
def lcc (c : Char) : Char :=
  if 65 ≤ c.toNat ∧ c.toNat ≤ 90 then Char.ofNat (c.toNat + 32) else c

/-- ASCII upper-casing of one character, as performed by `toUpperCase()` on
ASCII input. -/
def ucc (c : Char) : Char :=
  if 97 ≤ c.toNat ∧ c.toNat ≤ 122 then Char.ofNat (c.toNat - 32) else c

/-- Membership in the regex class `[a-z0-9]`. -/
def isAlnumLower (c : Char) : Bool :=
  (97 ≤ c.toNat && c.toNat ≤ 122) || (48 ≤ c.toNat && c.toNat ≤ 57)

/-- Membership in the JS regex class `\s` (ECMAScript WhiteSpace and
LineTerminator code points). -/
def jsWs (c : Char) : Bool :=
  let n := c.toNat
  n == 9 || n == 10 || n == 11 || n == 12 || n == 13 || n == 32 ||
  n == 160 || n == 5760 || (8192 ≤ n && n ≤ 8202) || n == 8232 ||
  n == 8233 || n == 8239 || n == 8287 || n == 12288 || n == 65279

/-- Membership in `[<>:"/\\|?*]`, the characters `sanitizeFilename` replaces. -/
def isFnForbidden (c : Char) : Bool :=
  c == '<' || c == '>' || c == ':' || c == '"' || c == '/' ||
  c == '\\' || c == '|' || c == '?' || c == '*'

/-! ## slugify (migrator.js lines 221-226)

```js
function slugify(text) {
  return text
    .toLowerCase()
    .replace(/[^a-z0-9]+/g, '-')
    .replace(/^-|-$/g, '');
}
```

`.replace(/[^a-z0-9]+/g, '-')` collapses each maximal run of characters
outside `[a-z0-9]` into a single `-`.  We implement it as a pair of mutually
recursive functions: `collapseRuns` copies `[a-z0-9]` characters and emits a
single `-` upon entering a run, `skipRun` consumes the rest of the run.

`.replace(/^-|-$/g, '')` deletes a `-` anchored at position 0 and a `-`
anchored at the last position (each at most once, since `^` and `$` match
at single positions and the regex consumes one character). -/

mutual

def collapseRuns : Cs → Cs
  | [] => []
  | c :: cs => if isAlnumLower c then c :: collapseRuns cs else '-' :: skipRun cs

def skipRun : Cs → Cs
  | [] => []
  | c :: cs => if isAlnumLower c then c :: collapseRuns cs else skipRun cs

end

/-- `.replace(/^-|-$/g, '')`: drop a leading dash, then drop a trailing dash. -/
def trimDashes (l : Cs) : Cs :=
  let l1 := if l.head? = some '-' then l.tail else l
  if l1.getLast? = some '-' then l1.dropLast else l1

/-- `slugify` from migrator.js (restricted to ASCII lower-casing, which is all
its callers exercise; non-ASCII letters are outside `[a-z0-9]` before and
after `toLowerCase`, so they are collapsed into `-` either way). -/
def slugify (text : Cs) : Cs :=
  trimDashes (collapseRuns (text.map lcc))

/-! ## sanitizeFilename (migrator.js lines 229-235)

```js
function sanitizeFilename(filename) {
  return filename
    .replace(/[<>:"/\\|?*]/g, '_')
    .replace(/\s+/g, '_');
}
``` -/

mutual

def collapseWs : Cs → Cs
  | [] => []
  | c :: cs => if jsWs c then '_' :: skipWsRun cs else c :: collapseWs cs

def skipWsRun : Cs → Cs
  | [] => []
  | c :: cs => if jsWs c then skipWsRun cs else c :: collapseWs cs

end

/-- `sanitizeFilename` from migrator.js: forbidden-character substitution,
then whitespace-run collapsing, in that order. -/
def sanitizeFilename (filename : Cs) : Cs :=
  collapseWs (filename.map (fun c => if isFnForbidden c then '_' else c))

/-! ## Regex-scanner framework

Every substitution in the source is `string.replace(/pattern/g...)`.  We model
one match attempt as a function `Cs → Option (Cs × Cs)` returning, on success,
the replacement text and the remaining input after the match.  `scanRepl`
then reproduces the global-replace loop: on failure copy one character and
retry at the next position, on success emit the replacement and continue
after the match.  The fuel argument is structural bookkeeping only; every
pattern below consumes at least one character per match, so `length + 1` fuel
always suffices (`runRule`). -/

/-- One global-replace pass (JS `replace` with the `g` flag). -/
def scanRepl (tryR : Cs → Option (Cs × Cs)) : Nat → Cs → Cs
  | 0, l => l
  | _ + 1, [] => []
  | fuel + 1, c :: cs =>
    match tryR (c :: cs) with
    | some (rep, rest) => rep ++ scanRepl tryR fuel rest
    | none => c :: scanRepl tryR fuel cs

/-- Run one rewrite rule over a whole document. -/
def runRule (tryR : Cs → Option (Cs × Cs)) (l : Cs) : Cs :=
  scanRepl tryR (l.length + 1) l

/-- All patterns of the dialect normalizer begin with a literal `<`; `tryAt`
factors that first character out so the match attempt fails immediately on
any other character. -/
def tryAt (k : Cs → Option (Cs × Cs)) : Cs → Option (Cs × Cs)
  | [] => none
  | c :: cs => if c = '<' then k (c :: cs) else none

/-- Case-insensitive literal match (`i` flag): `pat` is given lower-case;
returns the consumed original characters and the rest. -/
def ciTok (pat : Cs) : Cs → Option (Cs × Cs) :=
  fun l =>
    match pat, l with
    | [], l => some ([], l)
    | _ :: _, [] => none
    | p :: ps, c :: cs =>
      if lcc c = p then (ciTok ps cs).map (fun pr => (c :: pr.1, pr.2)) else none

/-- Case-sensitive literal match. -/
def csTok (pat : Cs) : Cs → Option (Cs × Cs) :=
  fun l =>
    match pat, l with
    | [], l => some ([], l)
    | _ :: _, [] => none
    | p :: ps, c :: cs =>
      if c = p then (csTok ps cs).map (fun pr => (c :: pr.1, pr.2)) else none

/-- Lazy `[\s\S]*?` followed by a sub-pattern: find the earliest position at
which `t` succeeds (retrying later positions when `t` fails there, which is
exactly the backtracking behaviour of a lazy quantifier).  Returns the
skipped characters and `t`'s result. -/
def seekTry {α : Type} (t : Cs → Option α) : Cs → Option (Cs × α)
  | [] => (t []).map (fun a => ([], a))
  | c :: cs =>
    match t (c :: cs) with
    | some a => some ([], a)
    | none => (seekTry t cs).map (fun pr => (c :: pr.1, pr.2))

/-- Greedy `[^>]*`: split at the first `>` (the run cannot cross it). -/
def splitGt (l : Cs) : Cs × Cs := l.span (fun c => c ≠ '>')

/-- Greedy `\s*` (JS whitespace class). -/
def wsSpan (l : Cs) : Cs × Cs := l.span (fun c => jsWs c)

/-- Expect a literal `>` (the end of a tag). -/
def expectGt : Cs → Option Cs
  | [] => none
  | c :: r => if c = '>' then some r else none

/-- Expect a literal `"`. -/
def expectQuote : Cs → Option Cs
  | [] => none
  | c :: r => if c = '"' then some r else none

/-- Greedy `[^>]*` (or `[^"]*`, …) followed by a literal sub-pattern
backtracks from the longest run, so the literal is found at its **last**
feasible position.  `lastWhere k` tries `k` at every suffix, preferring the
longest prefix (rightmost position), and returns the skipped prefix together
with `k`'s result. -/
def lastWhere {α : Type} (k : Cs → Option α) : Cs → Option (Cs × α)
  | [] => (k []).map (fun a => ([], a))
  | c :: cs =>
    match lastWhere k cs with
    | some (b, a) => some (c :: b, a)
    | none => (k (c :: cs)).map (fun a => ([], a))

/-- Does `sub` (lower-case) occur case-insensitively anywhere in `l`? -/
def containsCi (sub : Cs) (l : Cs) : Bool :=
  (seekTry (ciTok sub) l).isSome

/-! ## convertCodeBlock (migrator.js lines 129-139)

```js
const convertCodeBlock = (codeContent, language = '') => {
  let code = codeContent.replace(/\t/g, '\n');
  const escapedCode = code
    .replace(/&/g, '&amp;')
    .replace(/</g, '&lt;')
    .replace(/>/g, '&gt;');
  return `<pre><code class="language-${language}">${escapedCode}</code></pre>`;
};
``` -/

/-- `replace(/c/g, r)` for a single-character pattern. -/
def replaceChar (t : Char) (r : Cs) : Cs → Cs
  | [] => []
  | c :: cs => (if c = t then r else [c]) ++ replaceChar t r cs

/-- The code-macro body conversion helper from the source. -/
def convertCodeBlock (codeContent : Cs) (language : Cs := []) : Cs :=
  let code := replaceChar '\t' ['\n'] codeContent
  let escapedCode :=
    replaceChar '>' "&gt;".data
      (replaceChar '<' "&lt;".data (replaceChar '&' "&amp;".data code))
  "<pre><code class=\"language-".data ++ language ++ "\">".data ++
    escapedCode ++ "</code></pre>".data

/-- Single-pass character-wise HTML entity escaping (the property the
sequential `&`-first replace chain is meant to implement: `&`, `<`, `>`
escaped, everything else — quotes included — untouched). -/
def escHtmlChar (c : Char) : Cs :=
  if c = '&' then "&amp;".data
  else if c = '<' then "&lt;".data
  else if c = '>' then "&gt;".data
  else [c]

/-! ## The dialect normalizer `preprocessConfluenceHtml` (migrator.js 50-218)

One `try…` function per regex rule, in source order.  Each is wrapped in
`tryAt` since every pattern starts with a literal `<`. -/

/-- Attachment records as built by `downloadAttachments`. -/
structure Attachment where
  original : Cs
  sanitized : Cs
  path : Cs
  fileId : Option Cs

/-- `fileIdMap[att.fileId] = att.path` for every attachment with a truthy
`fileId`; later assignments override earlier ones, so we prepend and look
up front-to-back. -/
def fileIdMap (atts : List Attachment) : List (Cs × Cs) :=
  atts.foldl (fun m a => match a.fileId with | some f => (f, a.path) :: m | none => m) []

/-- Rule 1 (line 60): `/<img[^>]*data-fileid="([^"]+)"[^>]*>/gi` with a
function replacer: look the fileId up, rewrite to a local `<img>`, copying
the first `alt="…"` of the match (default `image`); on a failed lookup the
match is returned unchanged. -/
def tryBlobImg (fileMap : List (Cs × Cs)) : Cs → Option (Cs × Cs) :=
  tryAt fun l => do
    let (o1, r1) ← ciTok "<img".data l
    let (reg, r2) := splitGt r1
    let r3 ← expectGt r2
    let (_, fid) ← lastWhere (fun t => do
        let (_, t1) ← ciTok "data-fileid=\"".data t
        let (fid, t2) := t1.span (fun c => c ≠ '"')
        let _ ← expectQuote t2
        if fid = [] then none else some fid) reg
    let matched := o1 ++ reg ++ ['>']
    match fileMap.lookup fid with
    | some p =>
      let alt := match seekTry (fun t => do
          let (_, t1) ← csTok "alt=\"".data t
          let (a, t2) := t1.span (fun c => c ≠ '"')
          let _ ← expectQuote t2
          some a) matched with
        | some (_, a) => a
        | none => "image".data
      some ("<img src=\"".data ++ p ++ "\" alt=\"".data ++ alt ++ "\" />".data, r3)
    | none => some (matched, r3)

/-- Rule 2 (line 74): `/<svg[^>]*>[\s\S]*?<\/svg>/gi` → deleted. -/
def trySvg : Cs → Option (Cs × Cs) :=
  tryAt fun l => do
    let (_, r1) ← ciTok "<svg".data l
    let (reg, r2) := splitGt r1
    let r3 ← expectGt r2
    let _ := reg
    let (_, _, rest) ← seekTry (ciTok "</svg>".data) r3
    some ([], rest)

/-- Does the `[^>]*` tag region contain `class="…sub…"` (sub-string inside the
quoted class value), per `[^>]*class="[^"]*SUB[^"]*"`? -/
def classAttrHas (classSub : Cs) (reg : Cs) : Bool :=
  (lastWhere (fun t => do
      let (_, t1) ← ciTok "class=\"".data t
      let (q, t2) := t1.span (fun c => c ≠ '"')
      let _ ← expectQuote t2
      if containsCi classSub q then some () else none) reg).isSome

/-- Shared shape `<TAG[^>]*COND[^>]*>[\s\S]*?</TAG>` → deleted. -/
def tryRemoveTag (openLit : Cs) (regOk : Cs → Bool) (closeLit : Cs) :
    Cs → Option (Cs × Cs) :=
  tryAt fun l => do
    let (_, r1) ← ciTok openLit l
    let (reg, r2) := splitGt r1
    let r3 ← expectGt r2
    if regOk reg then do
      let (_, _, rest) ← seekTry (ciTok closeLit) r3
      some ([], rest)
    else none

/-- Rule 3a (line 77): spans with a `heading-anchor-wrapper` class. -/
def tryAnchorWrapSpan : Cs → Option (Cs × Cs) :=
  tryRemoveTag "<span".data (classAttrHas "heading-anchor-wrapper".data) "</span>".data

/-- Rule 3b (line 78): buttons with `data-testid="anchor-button"`. -/
def tryAnchorButton : Cs → Option (Cs × Cs) :=
  tryRemoveTag "<button".data (containsCi "data-testid=\"anchor-button\"".data)
    "</button>".data

/-- Rule 3c (line 79): spans with `data-testid="visually-hidden…"`. -/
def tryVisuallyHidden : Cs → Option (Cs × Cs) :=
  tryRemoveTag "<span".data
    (fun reg => (lastWhere (fun t => do
        let (_, t1) ← ciTok "data-testid=\"visually-hidden".data t
        let (_, t2) := t1.span (fun c => c ≠ '"')
        let _ ← expectQuote t2
        some ()) reg).isSome)
    "</span>".data

/-- Rule 4 (lines 83-89): Atlassian editor panels
`<div …class="…ak-editor-panel…"…data-panel-type="(T)"…>[\s\S]*?`
`<div …class="…ak-editor-panel__content…"…>([\s\S]*?)</div>\s*</div>`
→ `<blockquote>**T.toUpperCase():** content</blockquote>` (no label when the
panel type is empty). -/
def tryAkPanel : Cs → Option (Cs × Cs) :=
  tryAt fun l => do
    let (_, r1) ← ciTok "<div".data l
    let (reg, r2) := splitGt r1
    let r3 ← expectGt r2
    let (_, t3) ← lastWhere (fun t => do
        let (_, t1) ← ciTok "class=\"".data t
        let (q, t2) := t1.span (fun c => c ≠ '"')
        let t3 ← expectQuote t2
        if containsCi "ak-editor-panel".data q then some t3 else none) reg
    let (_, ty) ← lastWhere (fun u => do
        let (_, u1) ← ciTok "data-panel-type=\"".data u
        let (ty, u2) := u1.span (fun c => c ≠ '"')
        let _ ← expectQuote u2
        some ty) t3
    let (_, v3) ← seekTry (fun v => do
        let (_, v1) ← ciTok "<div".data v
        let (reg2, v2) := splitGt v1
        let v3 ← expectGt v2
        if classAttrHas "ak-editor-panel__content".data reg2 then some v3 else none) r3
    let (content, w3) ← seekTry (fun w => do
        let (_, w1) ← ciTok "</div>".data w
        let (_, w2) := wsSpan w1
        let (_, w3) ← ciTok "</div>".data w2
        some w3) v3
    let pre := if ty = [] then [] else "**".data ++ ty.map ucc ++ ":** ".data
    some ("<blockquote>".data ++ pre ++ content ++ "</blockquote>".data, w3)

/-- Rule 5 (line 92): panel icon divs. -/
def tryPanelIcon : Cs → Option (Cs × Cs) :=
  tryRemoveTag "<div".data (classAttrHas "ak-editor-panel__icon".data) "</div>".data

/-- Rule 6 (line 95): `/<span[^>]*data-loadable-vc-wrapper[^>]*>([\s\S]*?)<\/span>/gi`
→ `$1`. -/
def tryLoadable : Cs → Option (Cs × Cs) :=
  tryAt fun l => do
    let (_, r1) ← ciTok "<span".data l
    let (reg, r2) := splitGt r1
    let r3 ← expectGt r2
    if containsCi "data-loadable-vc-wrapper".data reg then do
      let (content, _, rest) ← seekTry (ciTok "</span>".data) r3
      some (content, rest)
    else none

/-- Rule 7 (lines 99-114): `/<ac:image[^>]*>([\s\S]*?)<\/ac:image>/gi` with a
function replacer inspecting the inner content for `ri:filename="…"` (local
attachment) or `ri:value="…"` (external URL); anything else is returned
unchanged. -/
def tryAcImage (pageSlug : Cs) : Cs → Option (Cs × Cs) :=
  tryAt fun l => do
    let (o1, r1) ← ciTok "<ac:image".data l
    let (reg, r2) := splitGt r1
    let r3 ← expectGt r2
    let (inner, o2, rest) ← seekTry (ciTok "</ac:image>".data) r3
    match seekTry (fun t => do
        let (_, t1) ← csTok "ri:filename=\"".data t
        let (fn, t2) := t1.span (fun c => c ≠ '"')
        let _ ← expectQuote t2
        if fn = [] then none else some fn) inner with
    | some (_, fn) =>
      let safe := sanitizeFilename fn
      some ("<img src=\"./attachments/".data ++ pageSlug ++ "/".data ++ safe ++
            "\" alt=\"".data ++ safe ++ "\" />".data, rest)
    | none =>
      match seekTry (fun t => do
          let (_, t1) ← csTok "ri:value=\"".data t
          let (url, t2) := t1.span (fun c => c ≠ '"')
          let _ ← expectQuote t2
          if url = [] then none else some url) inner with
      | some (_, url) =>
        some ("<img src=\"".data ++ url ++ "\" alt=\"external-image\" />".data, rest)
      | none => some (o1 ++ reg ++ '>' :: inner ++ o2, rest)

/-- The alternation `(info|note|warning|tip)` (first match wins; the four
alternatives start with distinct letters, so no backtracking ambiguity). -/
def panelTypeTok (t : Cs) : Option (Cs × Cs) :=
  match ciTok "info".data t with
  | some pr => some pr
  | none => match ciTok "note".data t with
    | some pr => some pr
    | none => match ciTok "warning".data t with
      | some pr => some pr
      | none => ciTok "tip".data t

/-- Rule 8 (lines 118-124): structured-macro panels named
info/note/warning/tip wrapping a rich-text body →
`<blockquote>**TYPE.toUpperCase():** content</blockquote>`. -/
def tryMacroPanel : Cs → Option (Cs × Cs) :=
  tryAt fun l => do
    let (_, r1) ← ciTok "<ac:structured-macro".data l
    let (reg, r2) := splitGt r1
    let r3 ← expectGt r2
    let (_, ty) ← lastWhere (fun t => do
        let (_, t1) ← ciTok "ac:name=\"".data t
        let (ty, t2) ← panelTypeTok t1
        let _ ← expectQuote t2
        some ty) reg
    let (_, res) ← seekTry (fun t => do
        let (_, t1) ← ciTok "<ac:rich-text-body>".data t
        let (content, _, t2) ← seekTry (ciTok "</ac:rich-text-body>".data) t1
        let (_, _, t3) ← seekTry (ciTok "</ac:structured-macro>".data) t2
        some (content, t3)) r3
    some ("<blockquote>**".data ++ ty.map ucc ++ ":** ".data ++ res.1 ++
          "</blockquote>".data, res.2)

/-- Rule 9a (lines 142-145): code macros **with** a language parameter. -/
def tryMacroCodeLang : Cs → Option (Cs × Cs) :=
  tryAt fun l => do
    let (_, r1) ← ciTok "<ac:structured-macro".data l
    let (reg, r2) := splitGt r1
    let r3 ← expectGt r2
    if containsCi "ac:name=\"code\"".data reg then do
      let (_, res) ← seekTry (fun t => do
          let (_, t1) ← ciTok "<ac:parameter".data t
          let (reg2, t2) := splitGt t1
          let t3 ← expectGt t2
          if containsCi "ac:name=\"language\"".data reg2 then do
            let (lang, t4) := t3.span (fun c => c ≠ '<')
            let (_, t5) ← ciTok "</ac:parameter>".data t4
            let (_, cu) ← seekTry (fun u => do
                let (_, u1) ← ciTok "<ac:plain-text-body><![cdata[".data u
                let (code, _, u2) ← seekTry (ciTok "]]></ac:plain-text-body>".data) u1
                let (_, _, u3) ← seekTry (ciTok "</ac:structured-macro>".data) u2
                some (code, u3)) t5
            some (lang, cu.1, cu.2)
          else none) r3
      some (convertCodeBlock res.2.1 res.1, res.2.2)
    else none

/-- Rule 9b (lines 148-151): code macros **without** a language parameter. -/
def tryMacroCodeNoLang : Cs → Option (Cs × Cs) :=
  tryAt fun l => do
    let (_, r1) ← ciTok "<ac:structured-macro".data l
    let (reg, r2) := splitGt r1
    let r3 ← expectGt r2
    if containsCi "ac:name=\"code\"".data reg then do
      let (_, cu) ← seekTry (fun u => do
          let (_, u1) ← ciTok "<ac:plain-text-body><![cdata[".data u
          let (code, _, u2) ← seekTry (ciTok "]]></ac:plain-text-body>".data) u1
          let (_, _, u3) ← seekTry (ciTok "</ac:structured-macro>".data) u2
          some (code, u3)) r3
      some (convertCodeBlock cu.1, cu.2)
    else none

/-- Rule 10 (line 154): `/<ac:structured-macro[^>]*\/>/gi` → deleted (the
`[^>]*` region must end in `/`). -/
def tryMacroSelfClose : Cs → Option (Cs × Cs) :=
  tryAt fun l => do
    let (_, r1) ← ciTok "<ac:structured-macro".data l
    let (reg, r2) := splitGt r1
    let r3 ← expectGt r2
    if reg.getLast? = some '/' then some ([], r3) else none

/-- `/<img[^>]*>/gi` matcher used by the residual-macro replacer (collected
text is the original match). -/
def tryImgTag : Cs → Option (Cs × Cs) :=
  tryAt fun l => do
    let (o1, r1) ← ciTok "<img".data l
    let (reg, r2) := splitGt r1
    let r3 ← expectGt r2
    some (o1 ++ reg ++ ['>'], r3)

/-- Collect all matches of a rule over a bounded text (JS `String.match` with
the `g` flag). -/
def scanCollect (tryR : Cs → Option (Cs × Cs)) : Nat → Cs → List Cs
  | 0, _ => []
  | _ + 1, [] => []
  | fuel + 1, c :: cs =>
    match tryR (c :: cs) with
    | some (m, rest) => m :: scanCollect tryR fuel rest
    | none => scanCollect tryR fuel cs

/-- Rule 11 (lines 157-164): any remaining structured macro with a closing
tag is deleted, but `<img…>` tags inside it are kept (joined with
newlines). -/
def tryMacroResidual : Cs → Option (Cs × Cs) :=
  tryAt fun l => do
    let (o1, r1) ← ciTok "<ac:structured-macro".data l
    let (reg, r2) := splitGt r1
    let r3 ← expectGt r2
    let (mid, o2, r4) ← seekTry (ciTok "</ac:structured-macro>".data) r3
    let matched := o1 ++ reg ++ '>' :: mid ++ o2
    let imgs := scanCollect tryImgTag (matched.length + 1) matched
    some (if imgs = [] then [] else List.intercalate ['\n'] imgs, r4)

/-- Rule 12 (line 166): `/<ac:parameter[^>]*>[\s\S]*?<\/ac:parameter>/gi` →
deleted. -/
def tryParamTag : Cs → Option (Cs × Cs) :=
  tryRemoveTag "<ac:parameter".data (fun _ => true) "</ac:parameter>".data

/-- Rule 13 (line 170): `/<colgroup>[\s\S]*?<\/colgroup>/gi` → deleted. -/
def tryColgroup : Cs → Option (Cs × Cs) :=
  tryAt fun l => do
    let (_, r1) ← ciTok "<colgroup>".data l
    let (_, _, rest) ← seekTry (ciTok "</colgroup>".data) r1
    some ([], rest)

/-- Rule 14 (line 172): `/<table[^>]*>/gi` → `<table>`. -/
def tryTableTag : Cs → Option (Cs × Cs) :=
  tryAt fun l => do
    let (_, r1) ← ciTok "<table".data l
    let (reg, r2) := splitGt r1
    let r3 ← expectGt r2
    let _ := reg
    some ("<table>".data, r3)

/-- `<t[hd][^>]*>` (a table-cell opening tag), returning the original
consumed characters. -/
def tryCellOpen : Cs → Option (Cs × Cs)
  | c0 :: c1 :: c2 :: r =>
    if c0 = '<' ∧ lcc c1 = 't' ∧ (lcc c2 = 'h' ∨ lcc c2 = 'd') then
      let (reg, r2) := splitGt r
      match expectGt r2 with
      | some r3 => some (c0 :: c1 :: c2 :: (reg ++ ['>']), r3)
      | none => none
    else none
  | _ => none

/-- `</t[hd]>` (a table-cell closing tag, no attributes). -/
def tryCellClose : Cs → Option (Cs × Cs)
  | c0 :: c1 :: c2 :: c3 :: c4 :: r =>
    if c0 = '<' ∧ c1 = '/' ∧ lcc c2 = 't' ∧ (lcc c3 = 'h' ∨ lcc c3 = 'd') ∧ c4 = '>' then
      some ([c0, c1, c2, c3, c4], r)
    else none
  | _ => none

/-- `<p(?:\s[^>]*)?>` (a paragraph opening tag, optionally with attributes;
`<p` must be followed by `>` or whitespace, so `<pre>`/`<param>` never
match). -/
def tryPOpenTag : Cs → Option (Cs × Cs)
  | c0 :: c1 :: r =>
    if c0 = '<' ∧ lcc c1 = 'p' then
      match r with
      | '>' :: r2 => some ([c0, c1, '>'], r2)
      | c :: r2 =>
        if jsWs c then
          let (attr, r3) := splitGt r2
          match expectGt r3 with
          | some r4 => some (c0 :: c1 :: c :: (attr ++ ['>']), r4)
          | none => none
        else none
      | [] => none
    else none
  | _ => none

/-- Rule 15a (line 175):
`/(<t[hd][^>]*>)\s*<p(?:\s[^>]*)?>([\s\S]*?)<\/p>\s*(<\/t[hd]>)/gi` →
`$1$2$3` (unwrap a single paragraph filling a cell). -/
def tryCellPFull : Cs → Option (Cs × Cs) :=
  tryAt fun l => do
    let (g1, r1) ← tryCellOpen l
    let (_, r2) := wsSpan r1
    let (_, r3) ← tryPOpenTag r2
    let (g2, res) ← seekTry (fun t => do
        let (_, t1) ← ciTok "</p>".data t
        let (_, t2) := wsSpan t1
        let (g3, t3) ← tryCellClose t2
        some (g3, t3)) r3
    some (g1 ++ g2 ++ res.1, res.2)

/-- Rule 15b (line 177): `/<\/p>\s*<p(?:\s[^>]*)?>/gi` → `<br/>`. -/
def tryPBoundary : Cs → Option (Cs × Cs) :=
  tryAt fun l => do
    let (_, r1) ← ciTok "</p>".data l
    let (_, r2) := wsSpan r1
    let (_, r3) ← tryPOpenTag r2
    some ("<br/>".data, r3)

/-- Rule 15c (line 179): `/(<t[hd][^>]*>)\s*<p(?:\s[^>]*)?>/gi` → `$1`. -/
def tryCellPOpen : Cs → Option (Cs × Cs) :=
  tryAt fun l => do
    let (g1, r1) ← tryCellOpen l
    let (_, r2) := wsSpan r1
    let (_, r3) ← tryPOpenTag r2
    some (g1, r3)

/-- Rule 15d (line 180): `/<\/p>\s*(<\/t[hd]>)/gi` → `$1`. -/
def tryPCloseCell : Cs → Option (Cs × Cs) :=
  tryAt fun l => do
    let (_, r1) ← ciTok "</p>".data l
    let (_, r2) := wsSpan r1
    let (g3, r3) ← tryCellClose r2
    some (g3, r3)

/-- Rule 16 (line 182): `/<(th|td)\s+[^>]*>/gi` → `<$1>` (strip cell
attributes; `\s+` then `[^>]*` is one whitespace character followed by a
greedy no-`>` run). -/
def tryCellAttrs : Cs → Option (Cs × Cs) :=
  tryAt fun l =>
    match l with
    | c0 :: c1 :: c2 :: r =>
      if c0 = '<' ∧ lcc c1 = 't' ∧ (lcc c2 = 'h' ∨ lcc c2 = 'd') then
        match r with
        | c :: r2 =>
          if jsWs c then
            let (_, r3) := splitGt r2
            match expectGt r3 with
            | some r4 => some ('<' :: c1 :: c2 :: ">".data, r4)
            | none => none
          else none
        | [] => none
      else none
    | _ => none

/-- One-or-more `(?:\s*<th>[\s\S]*?<\/th>\s*)` iterations, greedily
repeated; returns the consumed original characters. -/
def cellsLoop : Nat → Cs → Option (Cs × Cs)
  | 0, _ => none
  | fuel + 1, t =>
    match (do
      let (w1, t1) := wsSpan t
      let (o1, t2) ← ciTok "<th>".data t1
      let (mid, o2, t3) ← seekTry (ciTok "</th>".data) t2
      let (w2, t4) := wsSpan t3
      some (w1 ++ o1 ++ mid ++ o2 ++ w2, t4) : Option (Cs × Cs)) with
    | some (cell, t4) =>
      match cellsLoop fuel t4 with
      | some (more, rest) => some (cell ++ more, rest)
      | none => some (cell, t4)
    | none => none

/-- Rule 17 (lines 184-187):
`/<table>\s*<tbody>\s*(<tr>(?:\s*<th>[\s\S]*?<\/th>\s*)+<\/tr>)/gi` →
`<table><thead>$1</thead><tbody>`: move a header-cell-only first row of the
body into a synthesized `<thead>`. -/
def tryTheadFix : Cs → Option (Cs × Cs) :=
  tryAt fun l => do
    let (_, r1) ← ciTok "<table>".data l
    let (_, r2) := wsSpan r1
    let (_, r3) ← ciTok "<tbody>".data r2
    let (_, r4) := wsSpan r3
    let (otr, r5) ← ciTok "<tr>".data r4
    let (cells, r6) ← cellsLoop (r5.length + 1) r5
    let (octr, r7) ← ciTok "</tr>".data r6
    some ("<table><thead>".data ++ otr ++ cells ++ octr ++ "</thead><tbody>".data, r7)

/-- `<ri:page\s+ri:content-title="([^"]+)"[^>]*\/>`: the page reference inside
a vendor link; returns the captured title. -/
def linkPagePart (t : Cs) : Option (Cs × Cs) := do
  let (_, t1) ← ciTok "<ri:page".data t
  let (w, t2) := wsSpan t1
  if w = [] then none else do
  let (_, t3) ← ciTok "ri:content-title=\"".data t2
  let (title, t4) := t3.span (fun c => c ≠ '"')
  if title = [] then none else do
  let t5 ← expectQuote t4
  let (reg2, t6) := splitGt t5
  let t7 ← expectGt t6
  if reg2.getLast? = some '/' then some (title, t7) else none

/-- The anchor emitted by all three link rules; the slug is computed by the
inlined copy of `slugify` in the source (lines 194, 203, 212). -/
def linkAnchor (title txt : Cs) : Cs :=
  "<a href=\"CONFLUENCE_LINK:".data ++ slugify title ++ "\">".data ++ txt ++ "</a>".data

/-- Rule 18a (lines 191-197): link with an explicit rich `<ac:link-body>`. -/
def tryLinkBody : Cs → Option (Cs × Cs) :=
  tryAt fun l => do
    let (_, r1) ← ciTok "<ac:link".data l
    let (_, r2) := splitGt r1
    let r3 ← expectGt r2
    let (_, res) ← seekTry (fun t => do
        let (title, t7) ← linkPagePart t
        let (_, res2) ← seekTry (fun u => do
            let (_, u1) ← ciTok "<ac:link-body>".data u
            let (txt, u2) := u1.span (fun c => c ≠ '<')
            let (_, u3) ← ciTok "</ac:link-body>".data u2
            let (_, _, u4) ← seekTry (ciTok "</ac:link>".data) u3
            some (txt, u4)) t7
        some (title, res2.1, res2.2)) r3
    let (title, txt, rest) := res
    some (linkAnchor title (if txt = [] then title else txt), rest)

/-- Rule 18b (lines 200-206): link with a CDATA plain-text body. -/
def tryLinkCData : Cs → Option (Cs × Cs) :=
  tryAt fun l => do
    let (_, r1) ← ciTok "<ac:link".data l
    let (_, r2) := splitGt r1
    let r3 ← expectGt r2
    let (_, res) ← seekTry (fun t => do
        let (title, t7) ← linkPagePart t
        let (_, res2) ← seekTry (fun u => do
            let (_, u1) ← ciTok "<ac:plain-text-link-body><![cdata[".data u
            let (txt, u2) := u1.span (fun c => c ≠ ']')
            if txt = [] then none else do
            let (_, u3) ← ciTok "]]></ac:plain-text-link-body>".data u2
            let (_, _, u4) ← seekTry (ciTok "</ac:link>".data) u3
            some (txt, u4)) t7
        some (title, res2.1, res2.2)) r3
    let (title, txt, rest) := res
    some (linkAnchor title (if txt = [] then title else txt), rest)

/-- Rule 18c (lines 209-215): bare page reference, link text is the title. -/
def tryLinkBare : Cs → Option (Cs × Cs) :=
  tryAt fun l => do
    let (_, r1) ← ciTok "<ac:link".data l
    let (_, r2) := splitGt r1
    let r3 ← expectGt r2
    let (_, title, rest) ← seekTry (fun t => do
        let (title, t7) ← linkPagePart t
        let (_, _, t8) ← seekTry (ciTok "</ac:link>".data) t7
        some (title, t8)) r3
    some (linkAnchor title title, rest)

/-- `preprocessConfluenceHtml(html, pageSlug, attachments = [])`: the full
dialect normalizer, every rule in source order. -/
def preprocessConfluenceHtml (html : Cs) (pageSlug : Cs)
    (attachments : List Attachment := []) : Cs :=
  let h := runRule (tryBlobImg (fileIdMap attachments)) html
  let h := runRule trySvg h
  let h := runRule tryAnchorWrapSpan h
  let h := runRule tryAnchorButton h
  let h := runRule tryVisuallyHidden h
  let h := runRule tryAkPanel h
  let h := runRule tryPanelIcon h
  let h := runRule tryLoadable h
  let h := runRule (tryAcImage pageSlug) h
  let h := runRule tryMacroPanel h
  let h := runRule tryMacroCodeLang h
  let h := runRule tryMacroCodeNoLang h
  let h := runRule tryMacroSelfClose h
  let h := runRule tryMacroResidual h
  let h := runRule tryParamTag h
  let h := runRule tryColgroup h
  let h := runRule tryTableTag h
  let h := runRule tryCellPFull h
  let h := runRule tryPBoundary h
  let h := runRule tryCellPOpen h
  let h := runRule tryPCloseCell h
  let h := runRule tryCellAttrs h
  let h := runRule tryTheadFix h
  let h := runRule tryLinkBody h
  let h := runRule tryLinkCData h
  let h := runRule tryLinkBare h
  h

/-! ## The Text-Protection Pass (`convertToMarkdown`, migrator.js 539-594)

After Turndown, `convertToMarkdown`:
1. wraps Vue-component-looking capitalized tags in inline code (line 539);
2. extracts fenced code blocks into `__CODE_BLOCK_i__` placeholders (546);
3. extracts HTML tables into `__TABLE_i__` placeholders (553);
4. runs up to three passes of plain-HTML-tag escaping with a `(?!` backtick
   `)` negative lookahead (560-584);
5. restores tables, then code blocks, via `markdown.replace(token, text)`
   (587-594) — a JS first-occurrence string replace whose replacement text
   is subject to `$`-pattern expansion (`$$`, `$&`, dollar-backtick,
   dollar-quote). -/

/-- `[A-Z]`. -/
def isUpperAZ (c : Char) : Bool := 65 ≤ c.toNat && c.toNat ≤ 90

/-- `[a-zA-Z]`. -/
def isLetterAZ (c : Char) : Bool := isUpperAZ c || (97 ≤ c.toNat && c.toNat ≤ 122)

/-- Line 539: `/<([A-Z][a-zA-Z]*(?:Reference|Type|…|CUI)?)>/g` → backtick
`<$1>` backtick.  The optional suffix alternation is subsumed by the greedy
`[a-zA-Z]*` that precedes it (any split of the letter run between the star
and a suffix word still has to be followed by `>`), so the pattern matches
exactly `<`, an upper-case letter, a run of ASCII letters, `>`. -/
def tryIdentTag : Cs → Option (Cs × Cs) :=
  tryAt fun l =>
    match l with
    | _ :: c :: r =>
      if isUpperAZ c then
        let (ls, r2) := r.span isLetterAZ
        match r2 with
        | '>' :: r3 => some (btCh :: '<' :: c :: ls ++ '>' :: [btCh], r3)
        | _ => none
      else none
    | _ => none

/-- The `htmlTagNames` vocabulary (line 560), in alternation order;
`h[1-6]` expanded. -/
def tagNames : List Cs :=
  ["div".data, "span".data, "form".data, "input".data, "button".data,
   "select".data, "textarea".data, "label".data, "ul".data, "ol".data,
   "li".data, "p".data, "br".data, "img".data, "dl".data, "dt".data,
   "dd".data, "a".data, "hr".data, "header".data, "footer".data,
   "section".data, "aside".data, "nav".data, "article".data, "main".data,
   "figure".data, "figcaption".data,
   "h1".data, "h2".data, "h3".data, "h4".data, "h5".data, "h6".data]

/-- Continuation of an opening-tag match after its name: `(?:\s[^>]*)?>`
followed by the `(?!` backtick `)` lookahead; wraps the match in backticks
(the replacement backtick `$1` backtick). -/
def contOpenTag (orig : Cs) (r2 : Cs) : Option (Cs × Cs) :=
  match r2 with
  | [] => none
  | c :: r3 =>
    if c = '>' then
      if r3.head? = some btCh then none
      else some (btCh :: '<' :: orig ++ '>' :: [btCh], r3)
    else if jsWs c then
      match splitGt r3 with
      | (attr, r4) =>
        match expectGt r4 with
        | some r5 =>
          if r5.head? = some btCh then none
          else some (btCh :: '<' :: (orig ++ c :: attr ++ ['>']) ++ [btCh], r5)
        | none => none
    else none

/-- Ordered alternation over the tag vocabulary: on a failed continuation the
next alternative is tried (regex backtracking). -/
def tryNamesOpen : List Cs → Cs → Option (Cs × Cs)
  | [], _ => none
  | n :: ns, r =>
    match ciTok n r with
    | some (orig, r2) =>
      match contOpenTag orig r2 with
      | some res => some res
      | none => tryNamesOpen ns r
    | none => tryNamesOpen ns r

/-- Lines 564-569: `escapeOpeningTags`,
`/(<(?:NAMES)(?:\s[^>]*)?>)(?!B)/gi` → B`$1`B with B a backtick. -/
def tryOpenTag : Cs → Option (Cs × Cs) :=
  tryAt fun l =>
    match l with
    | _ :: r => tryNamesOpen tagNames r
    | [] => none

/-- Closing-tag alternation: `</NAME>` with the same lookahead. -/
def tryNamesClose : List Cs → Cs → Option (Cs × Cs)
  | [], _ => none
  | n :: ns, r =>
    match ciTok n r with
    | some (orig, r2) =>
      match expectGt r2 with
      | some r3 =>
        if r3.head? = some btCh then tryNamesClose ns r
        else some (btCh :: '<' :: '/' :: orig ++ '>' :: [btCh], r3)
      | none => tryNamesClose ns r
    | none => tryNamesClose ns r

/-- Lines 571-576: `escapeClosingTags`, `/(<\/(?:NAMES)>)(?!B)/gi`. -/
def tryCloseTag : Cs → Option (Cs × Cs) :=
  tryAt fun l =>
    match l with
    | _ :: c2 :: r => if c2 = '/' then tryNamesClose tagNames r else none
    | _ => none

/-- Line 546: `/```[\s\S]*?```/g` (case-sensitive, no flag `i`). -/
def tryFence (l : Cs) : Option (Cs × Cs) := do
  let (_, r1) ← csTok "```".data l
  let (mid, _, rest) ← seekTry (csTok "```".data) r1
  some ("```".data ++ mid ++ "```".data, rest)

/-- Line 554: `/<table[\s\S]*?<\/table>/gi`. -/
def tryTableSpan : Cs → Option (Cs × Cs) :=
  tryAt fun l => do
    let (o1, r1) ← ciTok "<table".data l
    let (mid, o2, rest) ← seekTry (ciTok "</table>".data) r1
    some (o1 ++ mid ++ o2, rest)

/-- Global replace that pushes each match onto a side table and substitutes
an indexed placeholder token. -/
def extractScan (mk : Nat → Cs) (tryR : Cs → Option (Cs × Cs)) :
    Nat → Nat → Cs → Cs × List Cs
  | 0, _, l => (l, [])
  | _ + 1, _, [] => ([], [])
  | fuel + 1, k, c :: cs =>
    match tryR (c :: cs) with
    | some (m, rest) =>
      let (o, bs) := extractScan mk tryR fuel (k + 1) rest
      (mk k ++ o, m :: bs)
    | none =>
      let (o, bs) := extractScan mk tryR fuel k cs
      (c :: o, bs)

/-- The code-block placeholder `__CODE_BLOCK_${i}__`. -/
def codeTok (k : Nat) : Cs := "__CODE_BLOCK_".data ++ (Nat.repr k).data ++ "__".data

/-- The table placeholder `__TABLE_${i}__`. -/
def tableTok (k : Nat) : Cs := "__TABLE_".data ++ (Nat.repr k).data ++ "__".data

/-- `$`-pattern expansion of a JS replacement string: `$$` → `$`, `$&` → the
matched text, dollar-backtick → the text before the match, dollar-quote →
the text after the match; everything else (including `$<digit>` when the
pattern has no capture groups) is literal. -/
def expandDollar (matched before after : Cs) : Cs → Cs
  | [] => []
  | '$' :: rest =>
    match rest with
    | [] => ['$']
    | d :: r2 =>
      if d = '$' then '$' :: expandDollar matched before after r2
      else if d = '&' then matched ++ expandDollar matched before after r2
      else if d = btCh then before ++ expandDollar matched before after r2
      else if d = aposCh then after ++ expandDollar matched before after r2
      else '$' :: expandDollar matched before after (d :: r2)
  | c :: rest => c :: expandDollar matched before after rest

/-- Split at the first occurrence of a literal ``pat``. -/
def splitFirst (pat : Cs) : Cs → Option (Cs × Cs)
  | [] => (csTok pat []).map (fun _ => ([], []))
  | c :: cs =>
    match csTok pat (c :: cs) with
    | some (_, rest) => some ([], rest)
    | none => (splitFirst pat cs).map (fun pr => (c :: pr.1, pr.2))

/-- `str.replace(pattern, replacement)` with **string** arguments: first
occurrence only, `$`-patterns expanded in the replacement. -/
def replaceFirstJs (pat repl l : Cs) : Cs :=
  match splitFirst pat l with
  | some (b, a) => b ++ expandDollar pat b a repl ++ a
  | none => l

/-- Lines 587-594: `placeholders.forEach((text, i) => md = md.replace(tok i,
text))`. -/
def restoreAll (mk : Nat → Cs) (blocks : List Cs) (md : Cs) : Cs :=
  (blocks.enum).foldl (fun m pr => replaceFirstJs (mk pr.1) pr.2 m) md

/-- One iteration of the escape loop body: `escapeOpeningTags()` then
`escapeClosingTags()`. -/
def escStage (md : Cs) : Cs := runRule tryCloseTag (runRule tryOpenTag md)

/-- Lines 579-584: up to three iterations, stopping when an iteration
changes nothing. -/
def escLoop (md : Cs) : Cs :=
  let m1 := escStage md
  if m1 = md then md
  else
    let m2 := escStage m1
    if m2 = m1 then m1
    else escStage m2

/-- The Text-Protection Pass: lines 539-594 of `convertToMarkdown` (from the
capitalized-identifier escaping through the placeholder restores). -/
def textProtect (md : Cs) : Cs :=
  let md1 := runRule tryIdentTag md
  let (md2, codeBs) := extractScan codeTok tryFence (md1.length + 1) 0 md1
  let (md3, tabBs) := extractScan tableTok tryTableSpan (md2.length + 1) 0 md2
  let md4 := escLoop md3
  let md5 := restoreAll tableTok tabBs md4
  restoreAll codeTok codeBs md5

/-- `v` is `u` with zero or more backtick characters inserted — the only
change the escaping replacements ever make to the scanned text. -/
inductive BtIns : Cs → Cs → Prop
  | nil : BtIns [] []
  | copy {u v : Cs} (c : Char) : BtIns u v → BtIns (c :: u) (c :: v)
  | ins {u v : Cs} : BtIns u v → BtIns u (btCh :: v)

/-- No suffix of `l` matches the rule — the scanner leaves `l` unchanged. -/
def NoM (t : Cs → Option (Cs × Cs)) (l : Cs) : Prop :=
  ∀ s : Cs, s <:+ l → t s = none

/-! ## Link Resolver phase 2 (`fixConfluenceLinks`, migrator.js 843-857)

```js
content = content.replace(/\[([^\]]+)\]\(CONFLUENCE_LINK:([^)]+)\)/g,
  (match, linkText, targetSlug) => {
    const targetPath = slugToPath.get(targetSlug);
    if (targetPath) {
      const currentParts = pageInfo.path.split('/').filter(Boolean);
      const targetParts = targetPath.split('/').filter(Boolean);
      const ups = currentParts.length;
      const relativePath = '../'.repeat(ups) + targetParts.join('/') + '/';
      return `[${linkText}](${relativePath})`;
    }
    return linkText;
  });
``` -/

/-- JS `"a/b/".split('/')` (keeps empty segments: `["a","b",""]`). -/
def splitOnSlash : Cs → List Cs
  | [] => [[]]
  | '/' :: r => [] :: splitOnSlash r
  | c :: r =>
    match splitOnSlash r with
    | s :: ss => (c :: s) :: ss
    | [] => [[c]]

/-- `path.split('/').filter(Boolean)`. -/
def splitSegs (p : Cs) : List Cs := (splitOnSlash p).filter (fun s => s ≠ [])

/-- The per-match callback of the placeholder rewrite. -/
def resolvePlaceholder (slugToPath : List (Cs × Cs))
    (sourcePath linkText targetSlug : Cs) : Cs :=
  match slugToPath.lookup targetSlug with
  | some targetPath =>
    let ups := (splitSegs sourcePath).length
    let rel := (List.replicate ups "../".data).flatten ++
               List.intercalate "/".data (splitSegs targetPath) ++ "/".data
    "[".data ++ linkText ++ "](".data ++ rel ++ ")".data
  | none => linkText

/-- `/\[([^\]]+)\]\(CONFLUENCE_LINK:([^)]+)\)/g` (case-sensitive). -/
def tryPlaceholderLink (m : List (Cs × Cs)) (src : Cs) : Cs → Option (Cs × Cs)
  | '[' :: r =>
    let (text, r1) := r.span (fun c => c ≠ ']')
    if text = [] then none
    else
      match csTok "](CONFLUENCE_LINK:".data r1 with
      | some (_, r2) =>
        let (slug, r3) := r2.span (fun c => c ≠ ')')
        if slug = [] then none
        else
          match r3 with
          | ')' :: r4 => some (resolvePlaceholder m src text slug, r4)
          | _ => none
      | none => none
  | _ => none

/-- Phase-2 placeholder rewriting of one page's content. -/
def fixPlaceholderLinks (m : List (Cs × Cs)) (src content : Cs) : Cs :=
  scanRepl (tryPlaceholderLink m src) (content.length + 1) content

/-- Modelled from the spec (§4.5): the relative path
`"../" * depth-of-source + joined-target-path-segments + "/"`. -/
def specRelativePath (depth : Nat) (targetSegs : List Cs) : Cs :=
  (List.replicate depth "../".data).flatten ++
    List.intercalate "/".data targetSegs ++ "/".data

/-! ## Specification-side predicates used by the theorems -/

/-- No two adjacent dashes (`--` never occurs). -/
def noDD : Cs → Bool
  | [] => true
  | [_] => true
  | a :: b :: r => !(a == '-' && b == '-') && noDD (b :: r)

/-- Acceptance of the regex fragment `([a-z0-9]|-[a-z0-9])*` — what may
legally follow the first alphanumeric character of `^[a-z0-9]+(-[a-z0-9]+)*$`
(it also accepts a leading `-[a-z0-9]` pair, which `matchesSlugRe` rules
out at the front). -/
def slugAfterAlnum : Cs → Bool
  | [] => true
  | c :: cs =>
    if isAlnumLower c then slugAfterAlnum cs
    else if c = '-' then
      match cs with
      | [] => false
      | d :: ds => isAlnumLower d && slugAfterAlnum ds
    else false

/-- Acceptance of `^[a-z0-9]+(-[a-z0-9]+)*$` (the slug shape from the
spec's testable properties). -/
def matchesSlugRe : Cs → Bool
  | [] => false
  | c :: cs => isAlnumLower c && slugAfterAlnum cs

/-- Recursive form of "drop the last character if it is a dash" (proved
equal to the `getLast?`/`dropLast` form used by `trimDashes`). -/
def trimTail : Cs → Cs
  | [] => []
  | [c] => if c = '-' then [] else [c]
  | c :: cs => c :: trimTail cs

/-- Single-pass entity escaping: the specification's description of the
code-macro body transform (`&`, `<`, `>` escaped — `&` first so entities are
not double-escaped — quotes untouched). -/
def escapeHtmlSpec (l : Cs) : Cs := (l.map escHtmlChar).flatten

/-! # Theorems -/

/-! ## Helper lemmas for `sanitizeFilename` (claim C10) -/

theorem collapseWs_mem {P : Char → Prop} (hP : P '_') :
    ∀ l : Cs, (∀ c ∈ l, P c) →
      (∀ c ∈ collapseWs l, P c) ∧ ∀ c ∈ skipWsRun l, P c := by
  intro l
  induction l with
  | nil =>
    intro _
    constructor <;> · intro c hc; simp [collapseWs, skipWsRun] at hc
  | cons a as ih =>
    intro h
    have ha : P a := h a (List.mem_cons_self a as)
    have has : ∀ c ∈ as, P c := fun c hc => h c (List.mem_cons_of_mem a hc)
    obtain ⟨ih1, ih2⟩ := ih has
    by_cases hw : jsWs a
    · constructor
      · intro c hc
        simp only [collapseWs, if_pos hw, List.mem_cons] at hc
        rcases hc with h1 | h1
        · subst h1; exact hP
        · exact ih2 c h1
      · intro c hc
        simp only [skipWsRun, if_pos hw] at hc
        exact ih2 c hc
    · constructor
      · intro c hc
        simp only [collapseWs, if_neg hw, List.mem_cons] at hc
        rcases hc with h1 | h1
        · subst h1; exact ha
        · exact ih1 c h1
      · intro c hc
        simp only [skipWsRun, if_neg hw, List.mem_cons] at hc
        rcases hc with h1 | h1
        · subst h1; exact ha
        · exact ih1 c h1

theorem collapseWs_no_ws :
    ∀ l : Cs, (∀ c ∈ collapseWs l, jsWs c = false) ∧ ∀ c ∈ skipWsRun l, jsWs c = false := by
  intro l
  induction l with
  | nil => constructor <;> · intro c hc; simp [collapseWs, skipWsRun] at hc
  | cons a as ih =>
    obtain ⟨ih1, ih2⟩ := ih
    by_cases hw : jsWs a
    · constructor
      · intro c hc
        simp only [collapseWs, if_pos hw, List.mem_cons] at hc
        rcases hc with h1 | h1
        · subst h1; decide
        · exact ih2 c h1
      · intro c hc
        simp only [skipWsRun, if_pos hw] at hc
        exact ih2 c hc
    · have ha : jsWs a = false := by simpa using hw
      constructor
      · intro c hc
        simp only [collapseWs, if_neg hw, List.mem_cons] at hc
        rcases hc with h1 | h1
        · subst h1; exact ha
        · exact ih1 c h1
      · intro c hc
        simp only [skipWsRun, if_neg hw, List.mem_cons] at hc
        rcases hc with h1 | h1
        · subst h1; exact ha
        · exact ih1 c h1

theorem collapseWs_fixed : ∀ l : Cs, (∀ c ∈ l, jsWs c = false) → collapseWs l = l := by
  intro l
  induction l with
  | nil => intro _; rfl
  | cons a as ih =>
    intro h
    have ha : jsWs a = false := h a (List.mem_cons_self a as)
    have has : ∀ c ∈ as, jsWs c = false := fun c hc => h c (List.mem_cons_of_mem a hc)
    simp only [collapseWs, ha]
    simp [ih has]

theorem mapFn_fixed : ∀ l : Cs, (∀ c ∈ l, isFnForbidden c = false) →
    l.map (fun c => if isFnForbidden c then '_' else c) = l := by
  intro l
  induction l with
  | nil => intro _; rfl
  | cons a as ih =>
    intro h
    have ha : isFnForbidden a = false := h a (List.mem_cons_self a as)
    have has : ∀ c ∈ as, isFnForbidden c = false := fun c hc => h c (List.mem_cons_of_mem a hc)
    simp [ha, ih has]

/-- C10: `sanitizeFilename` is idempotent: for every input string `x`,
`sanitizeFilename (sanitizeFilename x) = sanitizeFilename x`, where
`sanitizeFilename` replaces each of `< > : " / \ | ? *` by `_` and then
collapses every whitespace run to a single `_`, in that order. -/
theorem c10_sanitize_filename_idempotent (x : Cs) :
    sanitizeFilename (sanitizeFilename x) = sanitizeFilename x := by
  have hforb : ∀ c ∈ sanitizeFilename x, isFnForbidden c = false := by
    have hmap : ∀ c ∈ x.map (fun c => if isFnForbidden c then '_' else c),
        isFnForbidden c = false := by
      intro c hc
      rcases List.mem_map.mp hc with ⟨d, _, rfl⟩
      by_cases hf : isFnForbidden d
      · rw [if_pos hf]; decide
      · rw [if_neg hf]; simpa using hf
    exact (collapseWs_mem (P := fun c => isFnForbidden c = false) (by decide) _ hmap).1
  have hws : ∀ c ∈ sanitizeFilename x, jsWs c = false := (collapseWs_no_ws _).1
  calc sanitizeFilename (sanitizeFilename x)
      = collapseWs ((sanitizeFilename x).map
          (fun c => if isFnForbidden c then '_' else c)) := rfl
    _ = collapseWs (sanitizeFilename x) := by rw [mapFn_fixed _ hforb]
    _ = sanitizeFilename x := collapseWs_fixed _ hws

/-! ## Totality / pass-through of the dialect normalizer (claim C8) -/

theorem scanRepl_tryAt_fixed (k : Cs → Option (Cs × Cs)) :
    ∀ (fuel : Nat) (l : Cs), '<' ∉ l → scanRepl (tryAt k) fuel l = l := by
  intro fuel
  induction fuel with
  | zero => intro l _; rfl
  | succ n ih =>
    intro l h
    cases l with
    | nil => rfl
    | cons c cs =>
      have hc : c ≠ '<' := by rintro rfl; exact h (List.mem_cons_self _ _)
      have ht : tryAt k (c :: cs) = none := by simp [tryAt, hc]
      simp only [scanRepl, ht]
      exact congrArg (c :: ·) (ih cs (fun m => h (List.mem_cons_of_mem _ m)))

theorem runRule_tryAt_fixed (k : Cs → Option (Cs × Cs)) (l : Cs) (h : '<' ∉ l) :
    runRule (tryAt k) l = l :=
  scanRepl_tryAt_fixed k _ l h

theorem runRule_removeTag_fixed (a : Cs) (p : Cs → Bool) (c : Cs) (l : Cs)
    (h : '<' ∉ l) : runRule (tryRemoveTag a p c) l = l :=
  runRule_tryAt_fixed _ l h

/-- C8: the dialect normalizer is total (it is a function in this model) and
acts as the identity on any input containing no `<` — every rewrite rule's
pattern starts with a literal `<`, so a fragment matched by no rule passes
through unchanged and the pipeline always produces an output string. -/
theorem c8_normalizer_total_passthrough (html pageSlug : Cs) (atts : List Attachment)
    (h : '<' ∉ html) : preprocessConfluenceHtml html pageSlug atts = html := by
  simp only [preprocessConfluenceHtml]
  rw [show tryBlobImg (fileIdMap atts) = tryAt _ from rfl, runRule_tryAt_fixed _ _ h]
  rw [show trySvg = tryAt _ from rfl, runRule_tryAt_fixed _ _ h]
  rw [show tryAnchorWrapSpan = tryRemoveTag _ _ _ from rfl, runRule_removeTag_fixed _ _ _ _ h]
  rw [show tryAnchorButton = tryRemoveTag _ _ _ from rfl, runRule_removeTag_fixed _ _ _ _ h]
  rw [show tryVisuallyHidden = tryRemoveTag _ _ _ from rfl, runRule_removeTag_fixed _ _ _ _ h]
  rw [show tryAkPanel = tryAt _ from rfl, runRule_tryAt_fixed _ _ h]
  rw [show tryPanelIcon = tryRemoveTag _ _ _ from rfl, runRule_removeTag_fixed _ _ _ _ h]
  rw [show tryLoadable = tryAt _ from rfl, runRule_tryAt_fixed _ _ h]
  rw [show tryAcImage pageSlug = tryAt _ from rfl, runRule_tryAt_fixed _ _ h]
  rw [show tryMacroPanel = tryAt _ from rfl, runRule_tryAt_fixed _ _ h]
  rw [show tryMacroCodeLang = tryAt _ from rfl, runRule_tryAt_fixed _ _ h]
  rw [show tryMacroCodeNoLang = tryAt _ from rfl, runRule_tryAt_fixed _ _ h]
  rw [show tryMacroSelfClose = tryAt _ from rfl, runRule_tryAt_fixed _ _ h]
  rw [show tryMacroResidual = tryAt _ from rfl, runRule_tryAt_fixed _ _ h]
  rw [show tryParamTag = tryRemoveTag _ _ _ from rfl, runRule_removeTag_fixed _ _ _ _ h]
  rw [show tryColgroup = tryAt _ from rfl, runRule_tryAt_fixed _ _ h]
  rw [show tryTableTag = tryAt _ from rfl, runRule_tryAt_fixed _ _ h]
  rw [show tryCellPFull = tryAt _ from rfl, runRule_tryAt_fixed _ _ h]
  rw [show tryPBoundary = tryAt _ from rfl, runRule_tryAt_fixed _ _ h]
  rw [show tryCellPOpen = tryAt _ from rfl, runRule_tryAt_fixed _ _ h]
  rw [show tryPCloseCell = tryAt _ from rfl, runRule_tryAt_fixed _ _ h]
  rw [show tryCellAttrs = tryAt _ from rfl, runRule_tryAt_fixed _ _ h]
  rw [show tryTheadFix = tryAt _ from rfl, runRule_tryAt_fixed _ _ h]
  rw [show tryLinkBody = tryAt _ from rfl, runRule_tryAt_fixed _ _ h]
  rw [show tryLinkCData = tryAt _ from rfl, runRule_tryAt_fixed _ _ h]
  rw [show tryLinkBare = tryAt _ from rfl, runRule_tryAt_fixed _ _ h]

theorem c8_normalizer_total_passthrough_witness :
    '<' ∉ "hello world &amp; 123".data ∧
    preprocessConfluenceHtml "hello world &amp; 123".data "my-page".data []
      = "hello world &amp; 123".data :=
  ⟨by decide, c8_normalizer_total_passthrough _ _ _ (by decide)⟩

/-! ## Code-macro body escaping (claim C3) -/

theorem replaceChar_append (t : Char) (r : Cs) :
    ∀ a b : Cs, replaceChar t r (a ++ b) = replaceChar t r a ++ replaceChar t r b := by
  intro a b
  induction a with
  | nil => rfl
  | cons c cs ih => simp [replaceChar, ih, List.append_assoc]

theorem seq_escape_single (c : Char) :
    replaceChar '>' "&gt;".data (replaceChar '<' "&lt;".data
      (replaceChar '&' "&amp;".data [c])) = escHtmlChar c := by
  by_cases h1 : c = '&'
  · subst h1; decide
  by_cases h2 : c = '<'
  · subst h2; decide
  by_cases h3 : c = '>'
  · subst h3; decide
  simp [replaceChar, escHtmlChar, h1, h2, h3]

theorem seq_escape_eq_spec : ∀ l : Cs,
    replaceChar '>' "&gt;".data (replaceChar '<' "&lt;".data
      (replaceChar '&' "&amp;".data l)) = escapeHtmlSpec l := by
  intro l
  induction l with
  | nil => rfl
  | cons c cs ih =>
    have hsplit : (c :: cs) = [c] ++ cs := rfl
    rw [hsplit, replaceChar_append, replaceChar_append, replaceChar_append,
        seq_escape_single, ih]
    simp [escapeHtmlSpec]

/-- C3: for every code structured-macro body, the normalizer emits
`<pre><code class="language-LANG">…</code></pre>` where the body has tabs
replaced by newlines and is then entity-escaped `&`-first — equivalent to a
single character-wise pass escaping exactly `&`, `<`, `>` and leaving quotes
untouched (`escapeHtmlSpec`); and the spec's `xml` example evaluates to the
stated output, both through `convertCodeBlock` and through the whole
normalizer applied to the corresponding code macro. -/
theorem c3_code_macro_escaping :
    (∀ body lang : Cs, convertCodeBlock body lang =
        "<pre><code class=\"language-".data ++ lang ++ "\">".data ++
          escapeHtmlSpec (replaceChar '\t' ['\n'] body) ++ "</code></pre>".data)
    ∧ convertCodeBlock "<element attr=\"value\" />".data "xml".data =
        "<pre><code class=\"language-xml\">&lt;element attr=\"value\" /&gt;</code></pre>".data
    ∧ preprocessConfluenceHtml
        ("<ac:structured-macro ac:name=\"code\" ac:schema-version=\"1\">" ++
         "<ac:parameter ac:name=\"language\">xml</ac:parameter>" ++
         "<ac:plain-text-body><![CDATA[<element attr=\"value\" />]]></ac:plain-text-body>" ++
         "</ac:structured-macro>").data "my-page".data []
      = "<pre><code class=\"language-xml\">&lt;element attr=\"value\" /&gt;</code></pre>".data := by
  refine ⟨fun body lang => ?_, by decide, by decide⟩
  simp only [convertCodeBlock]
  rw [seq_escape_eq_spec]

/-! ## Helper lemmas for `slugify` (claim C9) -/

theorem lcc_fix {c : Char} (h : isAlnumLower c = true ∨ c = '-') : lcc c = c := by
  rcases h with h | h
  · have hn : (97 ≤ c.toNat ∧ c.toNat ≤ 122) ∨ (48 ≤ c.toNat ∧ c.toNat ≤ 57) := by
      simpa [isAlnumLower, Bool.or_eq_true, Bool.and_eq_true,
        decide_eq_true_eq] using h
    unfold lcc
    rw [if_neg (by omega)]
  · subst h; decide

theorem isAlnumLower_ne_dash {c : Char} (h : isAlnumLower c = true) : c ≠ '-' := by
  intro e; rw [e] at h; exact absurd h (by decide)

theorem noDD_tail {a : Char} {t : Cs} (h : noDD (a :: t) = true) : noDD t = true := by
  cases t with
  | nil => rfl
  | cons b r =>
    simp only [noDD, Bool.and_eq_true] at h
    exact h.2

theorem noDD_cons {a : Char} {t : Cs} (ht : noDD t = true)
    (hh : t.head? = some '-' → a ≠ '-') : noDD (a :: t) = true := by
  cases t with
  | nil => rfl
  | cons b r =>
    simp only [noDD, Bool.and_eq_true]
    refine ⟨?_, ht⟩
    by_cases hb : b = '-'
    · have ha : a ≠ '-' := hh (by simp [hb])
      simp [ha]
    · simp [hb]

theorem noDD_dash_head {t : Cs} (h : noDD ('-' :: t) = true) : t.head? ≠ some '-' := by
  cases t with
  | nil => simp
  | cons b r =>
    simp only [noDD, Bool.and_eq_true] at h
    intro hb
    simp only [List.head?_cons, Option.some.injEq] at hb
    subst hb
    simp at h

theorem collapseRuns_shape : ∀ l : Cs,
    ((∀ c ∈ collapseRuns l, isAlnumLower c = true ∨ c = '-') ∧
      noDD (collapseRuns l) = true)
    ∧ ((∀ c ∈ skipRun l, isAlnumLower c = true ∨ c = '-') ∧
      noDD (skipRun l) = true ∧ (skipRun l).head? ≠ some '-') := by
  intro l
  induction l with
  | nil =>
    refine ⟨⟨?_, rfl⟩, ?_, rfl, by simp [skipRun]⟩ <;>
      · intro c hc; simp [collapseRuns, skipRun] at hc
  | cons a as ih =>
    obtain ⟨⟨caMem, caNdd⟩, saMem, saNdd, saHead⟩ := ih
    by_cases hA : isAlnumLower a
    · have hne : a ≠ '-' := isAlnumLower_ne_dash hA
      refine ⟨⟨?_, ?_⟩, ?_, ?_, ?_⟩
      · intro c hc
        simp only [collapseRuns, if_pos hA, List.mem_cons] at hc
        rcases hc with h1 | h1
        · subst h1; exact Or.inl hA
        · exact caMem c h1
      · simp only [collapseRuns, if_pos hA]
        exact noDD_cons caNdd (fun _ => hne)
      · intro c hc
        simp only [skipRun, if_pos hA, List.mem_cons] at hc
        rcases hc with h1 | h1
        · subst h1; exact Or.inl hA
        · exact caMem c h1
      · simp only [skipRun, if_pos hA]
        exact noDD_cons caNdd (fun _ => hne)
      · simp only [skipRun, if_pos hA, List.head?_cons]
        simp [hne]
    · refine ⟨⟨?_, ?_⟩, ?_, ?_, ?_⟩
      · intro c hc
        simp only [collapseRuns, if_neg hA, List.mem_cons] at hc
        rcases hc with h1 | h1
        · subst h1; exact Or.inr rfl
        · exact saMem c h1
      · simp only [collapseRuns, if_neg hA]
        exact noDD_cons saNdd (fun hh => absurd hh saHead)
      · intro c hc
        simp only [skipRun, if_neg hA] at hc
        exact saMem c hc
      · simp only [skipRun, if_neg hA]
        exact saNdd
      · simp only [skipRun, if_neg hA]
        exact saHead

theorem trimTail_cons_cons (a b : Char) (r : Cs) :
    trimTail (a :: b :: r) = a :: trimTail (b :: r) := rfl

theorem trimTail_eq (l : Cs) :
    (if l.getLast? = some '-' then l.dropLast else l) = trimTail l := by
  induction l with
  | nil => rfl
  | cons a t ih =>
    cases t with
    | nil =>
      by_cases h : a = '-'
      · subst h; simp [trimTail]
      · simp [trimTail, h]
    | cons b r =>
      have hg : (a :: b :: r).getLast? = (b :: r).getLast? :=
        List.getLast?_cons_cons
      have hd : (a :: b :: r).dropLast = a :: (b :: r).dropLast := rfl
      rw [trimTail_cons_cons, ← ih]
      by_cases h : (b :: r).getLast? = some '-'
      · simp [hg, hd, h]
      · simp [hg, h]

theorem trimTail_sub : ∀ l : Cs, ∀ c ∈ trimTail l, c ∈ l := by
  intro l
  induction l with
  | nil => intro c hc; simp [trimTail] at hc
  | cons a t ih =>
    cases t with
    | nil =>
      intro c hc
      by_cases h : a = '-'
      · subst h; simp [trimTail] at hc
      · simp [trimTail, h] at hc; simp [hc]
    | cons b r =>
      intro c hc
      rw [trimTail_cons_cons] at hc
      rcases List.mem_cons.mp hc with h1 | h1
      · simp [h1]
      · exact List.mem_cons_of_mem a (ih c h1)

theorem trimTail_head (d : Char) (r : Cs) :
    (trimTail (d :: r)).head? = some d ∨ trimTail (d :: r) = [] := by
  cases r with
  | nil =>
    by_cases h : d = '-'
    · subst h; simp [trimTail]
    · simp [trimTail, h]
  | cons e r2 => simp [trimTail_cons_cons]

theorem trimTail_nil_iff (d : Char) (r : Cs) :
    trimTail (d :: r) = [] ↔ d = '-' ∧ r = [] := by
  cases r with
  | nil =>
    by_cases h : d = '-'
    · subst h; simp [trimTail]
    · simp [trimTail, h]
  | cons e r2 => simp [trimTail_cons_cons]

theorem noDD_two {a b : Char} {r : Cs} (h : noDD (a :: b :: r) = true) :
    ¬(a = '-' ∧ b = '-') := by
  simp only [noDD, Bool.and_eq_true] at h
  rintro ⟨rfl, rfl⟩
  simp at h

theorem slugAfterAlnum_alnum_cons {c : Char} (h : isAlnumLower c = true) (cs : Cs) :
    slugAfterAlnum (c :: cs) = slugAfterAlnum cs := by
  cases cs with
  | nil => rw [slugAfterAlnum.eq_2, if_pos h]
  | cons d ds => rw [slugAfterAlnum.eq_3, if_pos h]

theorem slugAfterAlnum_dash_cons (x : Char) (xs : Cs) :
    slugAfterAlnum ('-' :: x :: xs) = (isAlnumLower x && slugAfterAlnum xs) := rfl

theorem noDD_trimTail : ∀ l : Cs, noDD l = true → noDD (trimTail l) = true := by
  intro l
  induction l with
  | nil => intro _; rfl
  | cons a t ih =>
    intro h
    cases t with
    | nil =>
      by_cases ha : a = '-'
      · subst ha; decide
      · have e1 : trimTail [a] = [a] := by simp [trimTail, ha]
        rw [e1]; rfl
    | cons b r =>
      rw [trimTail_cons_cons]
      refine noDD_cons (ih (noDD_tail h)) (fun hh => ?_)
      rcases trimTail_head b r with h1 | h1
      · rw [h1] at hh
        have hb : b = '-' := by simpa using hh
        intro ha
        exact noDD_two h ⟨ha, hb⟩
      · rw [h1] at hh
        simp at hh

theorem getLast_trimTail : ∀ l : Cs, noDD l = true →
    (trimTail l).getLast? ≠ some '-' := by
  intro l
  induction l with
  | nil => intro _; simp [trimTail]
  | cons a t ih =>
    intro h
    cases t with
    | nil =>
      by_cases ha : a = '-'
      · subst ha; decide
      · have e1 : trimTail [a] = [a] := by simp [trimTail, ha]
        rw [e1]
        simpa using ha
    | cons b r =>
      rw [trimTail_cons_cons]
      rcases heq : trimTail (b :: r) with _ | ⟨x, xs⟩
      · obtain ⟨hb, hr⟩ := (trimTail_nil_iff b r).mp heq
        have ha : a ≠ '-' := fun e => noDD_two h ⟨e, hb⟩
        simpa using ha
      · have hlast := ih (noDD_tail h)
        rw [heq] at hlast
        rw [show (a :: x :: xs).getLast? = (x :: xs).getLast? from
          List.getLast?_cons_cons]
        exact hlast

theorem slugAfterAlnum_trimTail_aux : ∀ (n : Nat) (m : Cs), m.length ≤ n →
    (∀ c ∈ m, isAlnumLower c = true ∨ c = '-') → noDD m = true →
    slugAfterAlnum (trimTail m) = true := by
  intro n
  induction n with
  | zero =>
    intro m hm _ _
    have : m = [] := List.length_eq_zero.mp (Nat.le_zero.mp hm)
    subst this; rfl
  | succ n ih =>
    intro m hm hall hndd
    match m with
    | [] => rfl
    | [a] =>
      by_cases h : a = '-'
      · subst h; decide
      · have ha : isAlnumLower a = true := (hall a (by simp)).resolve_right h
        have e1 : trimTail [a] = [a] := by simp [trimTail, h]
        rw [e1, slugAfterAlnum_alnum_cons ha]
        rfl
    | a :: b :: r =>
      rw [trimTail_cons_cons]
      by_cases hA : isAlnumLower a
      · have ht := ih (b :: r)
          (by
            have : (b :: r).length + 1 ≤ n + 1 := by simpa using hm
            omega)
          (fun c hc => hall c (List.mem_cons_of_mem a hc)) (noDD_tail hndd)
        rw [slugAfterAlnum_alnum_cons hA]
        exact ht
      · have ha : a = '-' := (hall a (by simp)).resolve_left hA
        subst ha
        have hbne : b ≠ '-' := fun e => noDD_two hndd ⟨rfl, e⟩
        have hbA : isAlnumLower b = true := (hall b (by simp)).resolve_right hbne
        cases r with
        | nil =>
          have e1 : trimTail [b] = [b] := by simp [trimTail, hbne]
          rw [e1, slugAfterAlnum_dash_cons, hbA]
          rfl
        | cons e r2 =>
          have ht := ih (e :: r2)
            (by
              have : (e :: r2).length + 2 ≤ n + 1 := by simpa using hm
              omega)
            (fun c hc => hall c (List.mem_cons_of_mem _ (List.mem_cons_of_mem _ hc)))
            (noDD_tail (noDD_tail hndd))
          rw [trimTail_cons_cons, slugAfterAlnum_dash_cons, hbA, ht]
          rfl

theorem slugAfterAlnum_trimTail (m : Cs)
    (hall : ∀ c ∈ m, isAlnumLower c = true ∨ c = '-') (hndd : noDD m = true) :
    slugAfterAlnum (trimTail m) = true :=
  slugAfterAlnum_trimTail_aux m.length m le_rfl hall hndd

theorem collapseRuns_fixed : ∀ m : Cs,
    (∀ c ∈ m, isAlnumLower c = true ∨ c = '-') → noDD m = true →
    collapseRuns m = m ∧ (m.head? ≠ some '-' → skipRun m = m) := by
  intro m
  induction m with
  | nil => exact fun _ _ => ⟨rfl, fun _ => rfl⟩
  | cons a t ih =>
    intro hall hndd
    have htail := ih (fun c hc => hall c (List.mem_cons_of_mem a hc)) (noDD_tail hndd)
    by_cases hA : isAlnumLower a
    · constructor
      · simp only [collapseRuns, if_pos hA]
        rw [htail.1]
      · intro _
        simp only [skipRun, if_pos hA]
        rw [htail.1]
    · have ha : a = '-' := (hall a (by simp)).resolve_left hA
      subst ha
      constructor
      · simp only [collapseRuns, if_neg hA]
        rw [htail.2 (noDD_dash_head hndd)]
      · intro hh
        exact (hh rfl).elim

theorem map_lcc_fixed : ∀ l : Cs,
    (∀ c ∈ l, isAlnumLower c = true ∨ c = '-') → l.map lcc = l := by
  intro l
  induction l with
  | nil => intro _; rfl
  | cons a t ih =>
    intro h
    simp only [List.map_cons]
    rw [lcc_fix (h a (by simp)), ih (fun c hc => h c (List.mem_cons_of_mem a hc))]

theorem trimDashes_fixed {m : Cs} (h1 : m.head? ≠ some '-')
    (h2 : m.getLast? ≠ some '-') : trimDashes m = m := by
  show (if (if m.head? = some '-' then m.tail else m).getLast? = some '-'
        then (if m.head? = some '-' then m.tail else m).dropLast
        else (if m.head? = some '-' then m.tail else m)) = m
  rw [if_neg h1, if_neg h2]

/-- All facts about `trimDashes m` needed for the slug theorems, given the
collapse-output invariants of `m`. -/
theorem trimDashes_facts (m : Cs)
    (hall : ∀ c ∈ m, isAlnumLower c = true ∨ c = '-')
    (hndd : noDD m = true) :
    (∀ c ∈ trimDashes m, isAlnumLower c = true ∨ c = '-') ∧
    noDD (trimDashes m) = true ∧
    (trimDashes m).head? ≠ some '-' ∧
    (trimDashes m).getLast? ≠ some '-' ∧
    slugAfterAlnum (trimDashes m) = true := by
  have key : trimDashes m = trimTail (if m.head? = some '-' then m.tail else m) :=
    trimTail_eq _
  have h1all : ∀ c ∈ (if m.head? = some '-' then m.tail else m),
      isAlnumLower c = true ∨ c = '-' := by
    by_cases hh : m.head? = some '-'
    · rw [if_pos hh]
      intro c hc
      exact hall c (List.mem_of_mem_tail hc)
    · rw [if_neg hh]
      exact hall
  have h1ndd : noDD (if m.head? = some '-' then m.tail else m) = true := by
    by_cases hh : m.head? = some '-'
    · rw [if_pos hh]
      cases m with
      | nil => rfl
      | cons x t => exact noDD_tail hndd
    · rw [if_neg hh]; exact hndd
  have h1head : (if m.head? = some '-' then m.tail else m).head? ≠ some '-' := by
    by_cases hh : m.head? = some '-'
    · rw [if_pos hh]
      cases m with
      | nil => simp
      | cons x t =>
        have hx : x = '-' := by simpa using hh
        subst hx
        exact noDD_dash_head hndd
    · rw [if_neg hh]; exact hh
  rw [key]
  refine ⟨fun c hc => h1all c (trimTail_sub _ c hc), noDD_trimTail _ h1ndd, ?_,
    getLast_trimTail _ h1ndd, slugAfterAlnum_trimTail _ h1all h1ndd⟩
  rcases hl : (if m.head? = some '-' then m.tail else m) with _ | ⟨d, r⟩
  · simp [trimTail]
  · rcases trimTail_head d r with h1 | h1
    · rw [h1]
      rw [hl] at h1head
      simpa using h1head
    · rw [h1]
      simp

theorem slugify_facts (s : Cs) :
    (∀ c ∈ slugify s, isAlnumLower c = true ∨ c = '-') ∧
    noDD (slugify s) = true ∧
    (slugify s).head? ≠ some '-' ∧
    (slugify s).getLast? ≠ some '-' ∧
    slugAfterAlnum (slugify s) = true := by
  obtain ⟨hall, hndd⟩ := (collapseRuns_shape (s.map lcc)).1
  exact trimDashes_facts (collapseRuns (s.map lcc)) hall hndd

/-- C9: `slugify` is idempotent; its output is empty or matches
`^[a-z0-9]+(-[a-z0-9]+)*$`; and input whose characters are all
non-alphanumeric after lower-casing — in particular empty or
all-punctuation input — yields the empty string. -/
theorem c9_slugify_idempotent_shape :
    (∀ s : Cs, slugify (slugify s) = slugify s)
    ∧ (∀ s : Cs, slugify s = [] ∨ matchesSlugRe (slugify s) = true)
    ∧ (∀ s : Cs, (∀ c ∈ s, isAlnumLower (lcc c) = false) → slugify s = []) := by
  refine ⟨?_, ?_, ?_⟩
  · intro s
    obtain ⟨hall, hndd, hhead, hlast, _⟩ := slugify_facts s
    show trimDashes (collapseRuns ((slugify s).map lcc)) = slugify s
    rw [map_lcc_fixed _ hall, (collapseRuns_fixed _ hall hndd).1]
    exact trimDashes_fixed hhead hlast
  · intro s
    obtain ⟨hall, _, hhead, _, hafter⟩ := slugify_facts s
    cases hs : slugify s with
    | nil => exact Or.inl rfl
    | cons c t =>
      right
      have hc : c ≠ '-' := by
        rw [hs] at hhead
        simpa using hhead
      have hcA : isAlnumLower c = true := by
        have hmem := hall c (by rw [hs]; simp)
        exact hmem.resolve_right hc
      rw [hs] at hafter
      rw [slugAfterAlnum_alnum_cons hcA] at hafter
      simp [matchesSlugRe, hcA, hafter]
  · intro s h
    have key : ∀ l : Cs, (∀ c ∈ l, isAlnumLower c = false) →
        collapseRuns l = (if l = [] then [] else ['-']) ∧ skipRun l = [] := by
      intro l
      induction l with
      | nil => exact fun _ => ⟨rfl, rfl⟩
      | cons a t ih =>
        intro hl
        have ha : isAlnumLower a = false := hl a (by simp)
        have hA : ¬ isAlnumLower a = true := by simp [ha]
        have ht := ih (fun c hc => hl c (List.mem_cons_of_mem a hc))
        constructor
        · simp only [collapseRuns, if_neg hA, ht.2]
          simp
        · simp only [skipRun, if_neg hA]
          exact ht.2
    have hmap : ∀ c ∈ s.map lcc, isAlnumLower c = false := by
      intro c hc
      rcases List.mem_map.mp hc with ⟨d, hd, rfl⟩
      exact h d hd
    show trimDashes (collapseRuns (s.map lcc)) = []
    rw [(key _ hmap).1]
    by_cases hs : s.map lcc = []
    · rw [if_pos hs]; rfl
    · rw [if_neg hs]; rfl

theorem c9_slugify_idempotent_shape_witness :
    (∀ c ∈ "!@#$%".data, isAlnumLower (lcc c) = false) ∧
    slugify "!@#$%".data = [] :=
  ⟨by decide, c9_slugify_idempotent_shape.2.2 "!@#$%".data (by decide)⟩

/-! ## Text-Protection Pass: claims C1 and C2 -/

/-- C1 (code bug): the Text-Protection Pass is claimed to leave every fenced
code block's content byte-identical, but the restore step
`markdown.replace(token, block)` expands `$`-patterns in the block text, so a
code block containing `$&` comes back with the placeholder token substituted
for the `$&`: the input ```` ```a$&b``` ```` (a single fenced block) is
returned as ```` ```a__CODE_BLOCK_0__b``` ```` — the protected span is
altered. -/
theorem c1_code_block_content_altered :
    textProtect "```a$&b```".data = "```a__CODE_BLOCK_0__b```".data ∧
    textProtect "```a$&b```".data ≠ "```a$&b```".data :=
  ⟨by decide, by decide⟩

/-- C2 counterexample: running the Text-Protection Pass twice on `<Model>`
differs from running it once — the capitalized-identifier escaping has no
negative lookahead, so the second run wraps the already-wrapped tag again. -/
theorem c2_pass_not_idempotent_cex :
    textProtect (textProtect "<Model>".data) ≠ textProtect "<Model>".data := by
  decide

/-! ## Panel conversion: claim C4 -/

/-- C4 counterexample: a structured-macro panel with a macro name outside
{info, note, warning, tip} (here `danger`) wrapping a rich-text body is not
converted to a blockquote with the literal type as prefix — the panel rule
does not match it, and the residual-macro rule deletes it outright. -/
theorem c4_unknown_panel_cex :
    preprocessConfluenceHtml
      "<ac:structured-macro ac:name=\"danger\"><ac:rich-text-body>Be careful</ac:rich-text-body></ac:structured-macro>".data
      "my-page".data [] = [] ∧
    ([] : Cs) ≠ "<blockquote>**danger:** Be careful</blockquote>".data :=
  ⟨by decide, by decide⟩

/-- C4 (amended): structured-macro panels named info/note/warning/tip
wrapping a rich-text body become `<blockquote>**TYPE:** content</blockquote>`
with the type upper-cased; a structured macro of any other name is not
converted to a blockquote at all — the residual-macro rule deletes it,
preserving only any `<img>` tags found inside it (joined by newlines). -/
theorem c4_panel_conversion_amended :
    preprocessConfluenceHtml
      "<ac:structured-macro ac:name=\"info\"><ac:rich-text-body>Be careful</ac:rich-text-body></ac:structured-macro>".data
      "p".data [] = "<blockquote>**INFO:** Be careful</blockquote>".data
    ∧ preprocessConfluenceHtml
      "<ac:structured-macro ac:name=\"note\"><ac:rich-text-body>Be careful</ac:rich-text-body></ac:structured-macro>".data
      "p".data [] = "<blockquote>**NOTE:** Be careful</blockquote>".data
    ∧ preprocessConfluenceHtml
      "<ac:structured-macro ac:name=\"warning\"><ac:rich-text-body>Be careful</ac:rich-text-body></ac:structured-macro>".data
      "p".data [] = "<blockquote>**WARNING:** Be careful</blockquote>".data
    ∧ preprocessConfluenceHtml
      "<ac:structured-macro ac:name=\"tip\"><ac:rich-text-body>Be careful</ac:rich-text-body></ac:structured-macro>".data
      "p".data [] = "<blockquote>**TIP:** Be careful</blockquote>".data
    ∧ preprocessConfluenceHtml
      "<ac:structured-macro ac:name=\"expand\"><ac:rich-text-body>Hidden</ac:rich-text-body></ac:structured-macro>".data
      "p".data [] = []
    ∧ preprocessConfluenceHtml
      "<ac:structured-macro ac:name=\"gallery\"><ac:parameter ac:name=\"x\">1</ac:parameter><img src=\"a.png\"><img src=\"b.png\"></ac:structured-macro>".data
      "p".data [] = "<img src=\"a.png\">\n<img src=\"b.png\">".data :=
  ⟨by decide, by decide, by decide, by decide, by decide, by decide⟩

/-! ## Link resolution phase 2: claim C5 -/

/-- C5: for every placeholder link, when the slug is in the completed map
with target path `P` the link becomes `[text](../ * depth ++ joined segments
of P ++ /)` with depth the number of path segments of the source page's own
path; when the slug is absent the link is demoted to its plain text.  The
spec's example instance is checked through the whole phase-2 scanner. -/
theorem c5_link_resolution :
    (∀ (m : List (Cs × Cs)) (src text slug targetPath : Cs),
        m.lookup slug = some targetPath →
        resolvePlaceholder m src text slug =
          "[".data ++ text ++ "](".data ++
            specRelativePath (splitSegs src).length (splitSegs targetPath) ++
            ")".data)
    ∧ (∀ (m : List (Cs × Cs)) (src text slug : Cs),
        m.lookup slug = none → resolvePlaceholder m src text slug = text)
    ∧ fixPlaceholderLinks [("target-page".data, "a/b/".data)] "x/y/".data
        "see [Target Page](CONFLUENCE_LINK:target-page) here".data
        = "see [Target Page](../../a/b/) here".data
    ∧ fixPlaceholderLinks [] "x/y/".data
        "see [Target Page](CONFLUENCE_LINK:target-page) here".data
        = "see Target Page here".data := by
  refine ⟨?_, ?_, by decide, by decide⟩
  · intro m src text slug targetPath h
    simp only [resolvePlaceholder, h]
    rfl
  · intro m src text slug h
    simp only [resolvePlaceholder, h]

theorem c5_link_resolution_witness :
    [("target-page".data, "a/b/".data)].lookup "target-page".data
        = some "a/b/".data ∧
    resolvePlaceholder [("target-page".data, "a/b/".data)] "x/y/".data
        "Target Page".data "target-page".data =
      "[".data ++ "Target Page".data ++ "](".data ++
        specRelativePath (splitSegs "x/y/".data).length
          (splitSegs "a/b/".data) ++ ")".data :=
  ⟨by decide, c5_link_resolution.1 _ _ _ _ _ (by decide)⟩

/-! ## Table header relocation: claim C6 -/

/-- C6 counterexample: when the tbody opens with a run of TWO header-only
rows, the capture group of the relocation regex spans a single `<tr>…</tr>`,
so only the FIRST row moves into the synthesized thead; the claimed output
(the entire contiguous leading run relocated) differs. -/
theorem c6_leading_run_cex :
    preprocessConfluenceHtml
      "<table><tbody><tr><th>A</th></tr><tr><th>B</th></tr><tr><td>c</td></tr></tbody></table>".data
      "p".data []
      = "<table><thead><tr><th>A</th></tr></thead><tbody><tr><th>B</th></tr><tr><td>c</td></tr></tbody></table>".data
    ∧ "<table><thead><tr><th>A</th></tr></thead><tbody><tr><th>B</th></tr><tr><td>c</td></tr></tbody></table>".data
      ≠ "<table><thead><tr><th>A</th></tr><tr><th>B</th></tr></thead><tbody><tr><td>c</td></tr></tbody></table>".data :=
  ⟨by decide, by decide⟩

/-- C6 (amended): if a table's tbody directly opens with a header-cell-only
row, exactly that FIRST row is relocated into a synthesized thead ahead of
the tbody; subsequent header-only rows — further rows of a leading run
included — stay in the body, as do header-only rows deeper in the body. -/
theorem c6_thead_relocation_amended :
    preprocessConfluenceHtml
      "<table><tbody><tr><th>A</th></tr><tr><td>x</td></tr><tr><th>B</th></tr></tbody></table>".data
      "p".data []
      = "<table><thead><tr><th>A</th></tr></thead><tbody><tr><td>x</td></tr><tr><th>B</th></tr></tbody></table>".data
    ∧ preprocessConfluenceHtml
      "<table><tbody><tr><th>A</th></tr><tr><th>B</th></tr><tr><td>c</td></tr></tbody></table>".data
      "p".data []
      = "<table><thead><tr><th>A</th></tr></thead><tbody><tr><th>B</th></tr><tr><td>c</td></tr></tbody></table>".data :=
  ⟨by decide, by decide⟩

/-! ## Vendor link conversion: claim C7 -/

/-- C7 counterexample: the lazy link patterns may cross the closing boundary
of a body-less link into the following link's body — two adjacent links
(first without a body, second with a rich body) are merged into a single
anchor carrying the first link's slug and the second link's text, instead of
the per-link outputs the claim requires. -/
theorem c7_adjacent_links_cex :
    preprocessConfluenceHtml
      "<ac:link><ri:page ri:content-title=\"A\" /></ac:link><ac:link><ri:page ri:content-title=\"B\" /><ac:link-body>txt</ac:link-body></ac:link>".data
      "p".data []
      = "<a href=\"CONFLUENCE_LINK:a\">txt</a>".data
    ∧ "<a href=\"CONFLUENCE_LINK:a\">txt</a>".data
      ≠ "<a href=\"CONFLUENCE_LINK:a\">A</a><a href=\"CONFLUENCE_LINK:b\">txt</a>".data :=
  ⟨by decide, by decide⟩

/-- C7 (amended): for a self-contained vendor page-reference link the text
priority holds as claimed — rich link-body first, else CDATA plain-text
body, else the page title, always with href `CONFLUENCE_LINK:<slug>` — but
the guarantee is per regex match, not per link: adjacent links can be merged
when an earlier link lacks the body its pattern seeks (see the
counterexample). -/
theorem c7_link_text_priority_amended :
    preprocessConfluenceHtml
      "<ac:link ac:card-appearance=\"inline\"><ri:page ri:content-title=\"Target Page\" /><ac:link-body>Click here</ac:link-body></ac:link>".data
      "p".data []
      = "<a href=\"CONFLUENCE_LINK:target-page\">Click here</a>".data
    ∧ preprocessConfluenceHtml
      "<ac:link><ri:page ri:content-title=\"Target Page\" /><ac:plain-text-link-body><![CDATA[Click]]></ac:plain-text-link-body></ac:link>".data
      "p".data []
      = "<a href=\"CONFLUENCE_LINK:target-page\">Click</a>".data
    ∧ preprocessConfluenceHtml
      "<ac:link><ri:page ri:content-title=\"Target Page\" /></ac:link>".data
      "p".data []
      = "<a href=\"CONFLUENCE_LINK:target-page\">Target Page</a>".data
    ∧ preprocessConfluenceHtml
      "<ac:link><ri:page ri:content-title=\"T\" /><ac:link-body>Rich</ac:link-body><ac:plain-text-link-body><![CDATA[Plain]]></ac:plain-text-link-body></ac:link>".data
      "p".data []
      = "<a href=\"CONFLUENCE_LINK:t\">Rich</a>".data :=
  ⟨by decide, by decide, by decide, by decide⟩

/-! ## Idempotency of the plain-tag escape loop (claim C2, general form)

The escaping replacements only insert backticks (`BtIns`).  A backtick
insertion can neither create a new opening/closing tag match — the matched
characters are never backticks, and adjacency of non-backtick characters is
preserved when the inserted backticks are removed again — nor disable a
blocking lookahead backtick.  Consequently one `escStage` already reaches a
text in which no further match exists, and the escape loop is idempotent on
every input. -/

theorem btIns_refl : ∀ l : Cs, BtIns l l := by
  intro l
  induction l with
  | nil => exact BtIns.nil
  | cons c cs ih => exact BtIns.copy c ih

theorem btIns_nil_right {u : Cs} (h : BtIns u []) : u = [] := by
  cases h; rfl

theorem btIns_cons_nonbt {u v : Cs} {c : Char} (hc : c ≠ btCh)
    (h : BtIns u (c :: v)) : ∃ u2, u = c :: u2 ∧ BtIns u2 v := by
  cases h with
  | copy _ h2 => exact ⟨_, rfl, h2⟩
  | ins h2 => exact absurd rfl hc

theorem btIns_append {a b a2 b2 : Cs} (h1 : BtIns a b) (h2 : BtIns a2 b2) :
    BtIns (a ++ a2) (b ++ b2) := by
  induction h1 with
  | nil => simpa using h2
  | copy c _ ih => exact BtIns.copy c ih
  | ins _ ih => exact BtIns.ins ih

theorem btIns_lookahead {u v : Cs} (h : BtIns u v) (hv : v.head? ≠ some btCh) :
    u.head? ≠ some btCh := by
  cases h with
  | nil => simp
  | copy c h2 => simpa using hv
  | ins h2 => simp at hv

/-- A suffix of `v` starting at a non-backtick character corresponds to a
suffix of `u` with the same head. -/
theorem btIns_suffix {u v : Cs} (h : BtIns u v) :
    ∀ {c : Char} {s2 : Cs}, (c :: s2) <:+ v → c ≠ btCh →
    ∃ u2, (c :: u2) <:+ u ∧ BtIns u2 s2 := by
  induction h with
  | nil =>
    intro c s2 hs _
    have h1 := List.suffix_nil.mp hs
    exact absurd h1 (by simp)
  | copy d hd ih =>
    intro c s2 hs hc
    rcases List.suffix_cons_iff.mp hs with h1 | h1
    · injection h1 with h1a h1b
      subst h1a
      subst h1b
      exact ⟨_, List.suffix_refl _, hd⟩
    · obtain ⟨u2, hu2, hb⟩ := ih h1 hc
      exact ⟨u2, hu2.trans (List.suffix_cons d _), hb⟩
  | ins hd ih =>
    intro c s2 hs hc
    rcases List.suffix_cons_iff.mp hs with h1 | h1
    · exact absurd (by injection h1) hc
    · exact ih h1 hc

theorem noM_scanRepl_id {t : Cs → Option (Cs × Cs)} :
    ∀ (fuel : Nat) (l : Cs), NoM t l → scanRepl t fuel l = l := by
  intro fuel
  induction fuel with
  | zero => intro l _; rfl
  | succ n ih =>
    intro l h
    cases l with
    | nil => rfl
    | cons c cs =>
      have h0 : t (c :: cs) = none := h _ (List.suffix_refl _)
      simp only [scanRepl, h0]
      exact congrArg (c :: ·)
        (ih cs (fun s hs => h s (hs.trans (List.suffix_cons c cs))))

theorem suffix_append_cases {s b : Cs} :
    ∀ {a : Cs}, s <:+ a ++ b → (∃ s1, s1 <:+ a ∧ s = s1 ++ b) ∨ s <:+ b := by
  intro a
  induction a with
  | nil => intro h; exact Or.inr (by simpa using h)
  | cons c a2 ih =>
    intro h
    rcases List.suffix_cons_iff.mp h with h1 | h1
    · refine Or.inl ⟨c :: a2, List.suffix_refl _, ?_⟩
      simpa using h1
    · rcases ih h1 with ⟨s1, hs1, rfl⟩ | h2
      · exact Or.inl ⟨s1, hs1.trans (List.suffix_cons c a2), rfl⟩
      · exact Or.inr h2

theorem splitGt_nil : splitGt [] = ([], []) := rfl

theorem splitGt_cons (c : Char) (l : Cs) :
    splitGt (c :: l) =
      if c = '>' then ([], c :: l) else (c :: (splitGt l).1, (splitGt l).2) := by
  by_cases hc : c = '>'
  · simp [splitGt, List.span_eq_take_drop, List.takeWhile_cons,
      List.dropWhile_cons, hc]
  · simp [splitGt, List.span_eq_take_drop, List.takeWhile_cons,
      List.dropWhile_cons, hc]

theorem splitGt_append_gtfree {w : Cs} (hw : '>' ∉ w) (z : Cs) :
    splitGt (w ++ '>' :: z) = (w, '>' :: z) := by
  induction w with
  | nil => simp [splitGt_cons]
  | cons c w2 ih =>
    have hc : c ≠ '>' := fun e => hw (by simp [e])
    have ih2 := ih (fun m => hw (List.mem_cons_of_mem c m))
    rw [List.cons_append, splitGt_cons, if_neg hc, ih2]

theorem splitGt_no_gt_left (l : Cs) : '>' ∉ (splitGt l).1 := by
  intro hm
  simp only [splitGt, List.span_eq_take_drop] at hm
  have := List.mem_takeWhile_imp hm
  simp at this

theorem splitGt_decomp (l : Cs) : l = (splitGt l).1 ++ (splitGt l).2 := by
  simp only [splitGt, List.span_eq_take_drop]
  exact (List.takeWhile_append_dropWhile _ _).symm

theorem splitGt_btIns {u v : Cs} (h : BtIns u v) :
    ∀ {w r : Cs}, splitGt v = (w, '>' :: r) →
    ∃ w2 u2, splitGt u = (w2, '>' :: u2) ∧ BtIns u2 r := by
  induction h with
  | nil =>
    intro w r h1
    rw [splitGt_nil] at h1
    simp at h1
  | copy c hd ih =>
    intro w r h1
    rw [splitGt_cons] at h1
    by_cases hc : c = '>'
    · rw [if_pos hc] at h1
      subst hc
      obtain ⟨h2, h3⟩ := Prod.mk.injEq .. ▸ h1
      injection h3 with h3a h3b
      subst h3b
      exact ⟨[], _, by rw [splitGt_cons, if_pos rfl], hd⟩
    · rw [if_neg hc] at h1
      obtain ⟨h2, h3⟩ := Prod.mk.injEq .. ▸ h1
      obtain ⟨w2, u2, h4, hb⟩ := ih (w := (splitGt _).1) (r := r)
        (Prod.ext rfl h3)
      refine ⟨c :: w2, u2, ?_, hb⟩
      rw [splitGt_cons, if_neg hc, h4]
  | ins hd ih =>
    intro w r h1
    have hbt : btCh ≠ '>' := by decide
    rw [splitGt_cons, if_neg hbt] at h1
    obtain ⟨h2, h3⟩ := Prod.mk.injEq .. ▸ h1
    exact ih (Prod.ext rfl h3)

theorem lcc_bt : lcc btCh = btCh := by decide

theorem tagNames_no_bt : ∀ n ∈ tagNames, ∀ p ∈ n, p ≠ btCh := by decide

theorem tagNames_no_gt : ∀ n ∈ tagNames, ∀ p ∈ n, p ≠ '>' := by decide

theorem ciTok_decomp (pat : Cs) : ∀ l o r, ciTok pat l = some (o, r) →
    l = o ++ r ∧ ∀ c ∈ o, lcc c ∈ pat := by
  induction pat with
  | nil =>
    intro l o r h
    simp only [ciTok, Option.some.injEq, Prod.mk.injEq] at h
    obtain ⟨rfl, rfl⟩ := h
    exact ⟨rfl, by simp⟩
  | cons p ps ih =>
    intro l o r h
    cases l with
    | nil => simp [ciTok] at h
    | cons c cs =>
      simp only [ciTok] at h
      by_cases hc : lcc c = p
      · rw [if_pos hc] at h
        rcases Option.map_eq_some'.mp h with ⟨⟨o2, r2⟩, h2, heq⟩
        simp only [Prod.mk.injEq] at heq
        obtain ⟨rfl, rfl⟩ := heq
        obtain ⟨hl, hmem⟩ := ih cs o2 _ h2
        refine ⟨by rw [hl]; rfl, ?_⟩
        intro d hd
        rcases List.mem_cons.mp hd with h1 | h1
        · subst h1; rw [hc]; simp
        · exact List.mem_cons_of_mem p (hmem d h1)
      · rw [if_neg hc] at h
        simp at h

theorem ciTok_btIns (pat : Cs) (hpat : ∀ p ∈ pat, p ≠ btCh) :
    ∀ {u v : Cs} {o r : Cs}, BtIns u v → ciTok pat v = some (o, r) →
    ∃ u2, ciTok pat u = some (o, u2) ∧ BtIns u2 r := by
  induction pat with
  | nil =>
    intro u v o r hb h
    simp only [ciTok, Option.some.injEq, Prod.mk.injEq] at h
    obtain ⟨rfl, rfl⟩ := h
    exact ⟨u, rfl, hb⟩
  | cons p ps ih =>
    intro u v o r hb h
    cases v with
    | nil => simp [ciTok] at h
    | cons c cs =>
      simp only [ciTok] at h
      by_cases hc : lcc c = p
      · rw [if_pos hc] at h
        rcases Option.map_eq_some'.mp h with ⟨⟨o2, r2⟩, h2, heq⟩
        simp only [Prod.mk.injEq] at heq
        obtain ⟨rfl, rfl⟩ := heq
        have hcbt : c ≠ btCh := by
          intro e
          have hp : p = btCh := by rw [← hc, e]; exact lcc_bt
          exact hpat p (by simp) hp
        obtain ⟨u2, rfl, hb2⟩ := btIns_cons_nonbt hcbt hb
        obtain ⟨u3, hu3, hb3⟩ := ih (fun q hq => hpat q (List.mem_cons_of_mem p hq))
          hb2 h2
        refine ⟨u3, ?_, hb3⟩
        simp only [ciTok]
        rw [if_pos hc, hu3]
        rfl
      · rw [if_neg hc] at h
        simp at h

theorem append_split_gtfree : ∀ {o w2 r2 z : Cs},
    o ++ r2 = w2 ++ '>' :: z → '>' ∉ o → '>' ∉ w2 →
    ∃ w3, w2 = o ++ w3 ∧ r2 = w3 ++ '>' :: z ∧ '>' ∉ w3 := by
  intro o
  induction o with
  | nil =>
    intro w2 r2 z h _ hw
    exact ⟨w2, rfl, by simpa using h, hw⟩
  | cons c o2 ih =>
    intro w2 r2 z h ho hw
    cases w2 with
    | nil =>
      simp only [List.nil_append, List.cons_append] at h
      injection h with h1 h2
      subst h1
      exact absurd (List.mem_cons_self _ _) ho
    | cons d w3 =>
      simp only [List.cons_append] at h
      injection h with h1 h2
      subst h1
      obtain ⟨w4, hw4, hr2, hnw4⟩ := ih h2 (fun m => ho (List.mem_cons_of_mem c m))
        (fun m => hw (List.mem_cons_of_mem c m))
      exact ⟨w4, by rw [hw4]; rfl, hr2, hnw4⟩

theorem jsWs_bt : jsWs btCh = false := by decide

theorem lcc_gt : lcc '>' = '>' := by decide

theorem expectGt_some : ∀ {l r : Cs}, expectGt l = some r → l = '>' :: r := by
  intro l r h
  cases l with
  | nil => exact absurd h (by simp [expectGt])
  | cons c l2 =>
    by_cases hc : c = '>'
    · subst hc
      have h2 : some l2 = some r := by simpa [expectGt] using h
      injection h2 with h3
      rw [h3]
    · simp [expectGt, hc] at h

theorem expectGt_cons_gt (r : Cs) : expectGt ('>' :: r) = some r := by
  simp [expectGt]

theorem tryOpenTag_nil : tryOpenTag [] = none := rfl

theorem tryOpenTag_cons_lt (X : Cs) :
    tryOpenTag ('<' :: X) = tryNamesOpen tagNames X := rfl

theorem tryOpenTag_not_lt {c : Char} (hc : c ≠ '<') (X : Cs) :
    tryOpenTag (c :: X) = none := by
  simp [tryOpenTag, tryAt, hc]

theorem tryNamesOpen_some_ex : ∀ (names : List Cs) (r : Cs) (res : Cs × Cs),
    tryNamesOpen names r = some res →
    ∃ n, n ∈ names ∧ ∃ o r2, ciTok n r = some (o, r2) ∧ contOpenTag o r2 = some res := by
  intro names
  induction names with
  | nil => intro r res h; exact absurd h (by simp [tryNamesOpen])
  | cons n0 ns ih =>
    intro r res h
    cases hci : ciTok n0 r with
    | none =>
      simp only [tryNamesOpen, hci] at h
      obtain ⟨n, hn, rest⟩ := ih r res h
      exact ⟨n, List.mem_cons_of_mem n0 hn, rest⟩
    | some pr =>
      obtain ⟨o, r2⟩ := pr
      simp only [tryNamesOpen, hci] at h
      cases hco : contOpenTag o r2 with
      | none =>
        simp only [hco] at h
        obtain ⟨n, hn, rest⟩ := ih r res h
        exact ⟨n, List.mem_cons_of_mem n0 hn, rest⟩
      | some res2 =>
        simp only [hco, Option.some.injEq] at h
        subst h
        exact ⟨n0, List.mem_cons_self n0 ns, o, r2, hci, hco⟩

theorem tryNamesOpen_witness : ∀ (names : List Cs) (r n : Cs), n ∈ names →
    ∀ (o r2 : Cs) (res : Cs × Cs), ciTok n r = some (o, r2) →
    contOpenTag o r2 = some res → tryNamesOpen names r ≠ none := by
  intro names
  induction names with
  | nil => intro r n hn; exact absurd hn (by simp)
  | cons n0 ns ih =>
    intro r n hn o r2 res hci hco
    rcases List.mem_cons.mp hn with rfl | hn2
    · simp [tryNamesOpen, hci, hco]
    · cases hci0 : ciTok n0 r with
      | none =>
        simp only [tryNamesOpen, hci0]
        exact ih r n hn2 o r2 res hci hco
      | some pr =>
        obtain ⟨o0, r20⟩ := pr
        simp only [tryNamesOpen, hci0]
        cases hco0 : contOpenTag o0 r20 with
        | none =>
          simp only [hco0]
          exact ih r n hn2 o r2 res hci hco
        | some res0 => simp [hco0]

theorem contOpenTag_shape : ∀ {o r2 : Cs} {rep rest : Cs},
    contOpenTag o r2 = some (rep, rest) →
    ∃ mid, r2 = mid ++ '>' :: rest ∧
      rep = btCh :: '<' :: (o ++ mid) ++ '>' :: [btCh] ∧
      '>' ∉ mid ∧ rest.head? ≠ some btCh := by
  intro o r2 rep rest h
  cases r2 with
  | nil => exact absurd h (by simp [contOpenTag])
  | cons c r3 =>
    simp only [contOpenTag] at h
    by_cases hc : c = '>'
    · rw [if_pos hc] at h
      by_cases hl : r3.head? = some btCh
      · rw [if_pos hl] at h; exact absurd h (by simp)
      · rw [if_neg hl] at h
        injection h with h1
        injection h1 with ha hb
        subst hb
        refine ⟨[], by simp [hc], ?_, by simp, hl⟩
        rw [← ha]
        simp
    · rw [if_neg hc] at h
      by_cases hw : jsWs c
      · rw [if_pos hw] at h
        rcases hsp : splitGt r3 with ⟨attr, r4⟩
        simp only [hsp] at h
        cases hex : expectGt r4 with
        | none =>
          simp only [hex] at h
          exact absurd h (by simp)
        | some r5 =>
          simp only [hex] at h
          by_cases hl : r5.head? = some btCh
          · rw [if_pos hl] at h; exact absurd h (by simp)
          · rw [if_neg hl] at h
            injection h with h1
            injection h1 with ha hb
            subst hb
            have hd : r3 = attr ++ r4 := by
              have h9 := splitGt_decomp r3
              rw [hsp] at h9
              exact h9
            have hr4 := expectGt_some hex
            have hattr : '>' ∉ attr := by
              have h9 := splitGt_no_gt_left r3
              rw [hsp] at h9
              exact h9
            refine ⟨c :: attr, ?_, ?_, ?_, hl⟩
            · rw [hd, hr4]; simp
            · rw [← ha]; simp
            · intro hm
              rcases List.mem_cons.mp hm with h1 | h1
              · exact hc h1.symm
              · exact hattr h1
      · rw [if_neg hw] at h
        exact absurd h (by simp)

theorem contOpenTag_wrap_none (o w3 v : Cs) (hw : '>' ∉ w3) :
    contOpenTag o (w3 ++ '>' :: btCh :: v) = none := by
  cases w3 with
  | nil => simp [contOpenTag]
  | cons c w4 =>
    have hc : c ≠ '>' := fun e => hw (by simp [e])
    have hw4 : '>' ∉ w4 := fun m => hw (List.mem_cons_of_mem c m)
    simp only [List.cons_append, contOpenTag, if_neg hc]
    by_cases hws : jsWs c
    · simp [hws, splitGt_append_gtfree hw4 (btCh :: v), expectGt]
    · simp [hws]

theorem tryNamesOpen_wrap_none : ∀ (names : List Cs),
    (∀ n ∈ names, ∀ p ∈ n, p ≠ '>') →
    ∀ (w2 v : Cs), '>' ∉ w2 → tryNamesOpen names (w2 ++ '>' :: btCh :: v) = none := by
  intro names
  induction names with
  | nil => intro _ w2 v _; simp [tryNamesOpen]
  | cons n0 ns ih =>
    intro hng w2 v hw
    have ihx := ih (fun n hn => hng n (List.mem_cons_of_mem n0 hn)) w2 v hw
    cases hci : ciTok n0 (w2 ++ '>' :: btCh :: v) with
    | none =>
      simp only [tryNamesOpen, hci]
      exact ihx
    | some pr =>
      obtain ⟨o, r2⟩ := pr
      obtain ⟨heq, hmem⟩ := ciTok_decomp n0 _ o r2 hci
      have ho : '>' ∉ o := by
        intro hm
        have h2 := hmem '>' hm
        rw [lcc_gt] at h2
        exact hng n0 (List.mem_cons_self n0 ns) '>' h2 rfl
      obtain ⟨w3, hw3, hr2, hnw3⟩ := append_split_gtfree heq.symm ho hw
      simp only [tryNamesOpen, hci, hr2, contOpenTag_wrap_none o w3 v hnw3]
      exact ihx

theorem tryOpenTag_after_wrap (w v : Cs) (hw : '>' ∉ w) :
    tryOpenTag (w ++ '>' :: btCh :: v) = none := by
  cases w with
  | nil => exact tryOpenTag_not_lt (by decide) _
  | cons c w2 =>
    by_cases hc : c = '<'
    · subst hc
      rw [List.cons_append, tryOpenTag_cons_lt]
      exact tryNamesOpen_wrap_none tagNames tagNames_no_gt w2 v
        (fun m => hw (List.mem_cons_of_mem _ m))
    · rw [List.cons_append]
      exact tryOpenTag_not_lt hc _

theorem tryOpenTag_shape : ∀ {l : Cs} {rep rest : Cs},
    tryOpenTag l = some (rep, rest) →
    ∃ body, l = '<' :: body ++ '>' :: rest ∧
      rep = btCh :: '<' :: body ++ '>' :: [btCh] ∧
      '>' ∉ body ∧ rest.head? ≠ some btCh := by
  intro l rep rest h
  cases l with
  | nil => exact absurd h (by simp [tryOpenTag_nil])
  | cons c cs =>
    by_cases hc : c = '<'
    · subst hc
      rw [tryOpenTag_cons_lt] at h
      obtain ⟨n, hn, o, r2, hci, hco⟩ := tryNamesOpen_some_ex tagNames cs (rep, rest) h
      obtain ⟨heq, hmem⟩ := ciTok_decomp n cs o r2 hci
      obtain ⟨mid, hr2, hrep, hmid, hlook⟩ := contOpenTag_shape hco
      have ho : '>' ∉ o := by
        intro hm
        have h2 := hmem '>' hm
        rw [lcc_gt] at h2
        exact tagNames_no_gt n hn '>' h2 rfl
      refine ⟨o ++ mid, ?_, ?_, ?_, hlook⟩
      · rw [heq, hr2]; simp
      · exact hrep
      · intro hm
        rcases List.mem_append.mp hm with h1 | h1
        · exact ho h1
        · exact hmid h1
    · rw [tryOpenTag_not_lt hc] at h
      exact absurd h (by simp)

theorem tryOpenTag_mid : ∀ (l rep rest : Cs), tryOpenTag l = some (rep, rest) →
    ∃ mid, l = mid ++ rest ∧ BtIns mid rep := by
  intro l rep rest h
  obtain ⟨body, hl, hrep, _, _⟩ := tryOpenTag_shape h
  refine ⟨'<' :: body ++ ['>'], ?_, ?_⟩
  · rw [hl]; simp
  · rw [hrep]
    have h1 : BtIns ('<' :: body ++ ['>'] ++ []) ('<' :: body ++ ['>'] ++ [btCh]) :=
      btIns_append (btIns_refl _) (BtIns.ins BtIns.nil)
    have h2 := BtIns.ins h1
    simpa using h2

theorem btIns_scanRepl (t : Cs → Option (Cs × Cs))
    (hsh : ∀ l rep rest, t l = some (rep, rest) → ∃ mid, l = mid ++ rest ∧ BtIns mid rep) :
    ∀ (fuel : Nat) (l : Cs), BtIns l (scanRepl t fuel l) := by
  intro fuel
  induction fuel with
  | zero => intro l; exact btIns_refl l
  | succ n ih =>
    intro l
    cases l with
    | nil => exact BtIns.nil
    | cons c cs =>
      cases h : t (c :: cs) with
      | none =>
        simp only [scanRepl, h]
        exact BtIns.copy c (ih cs)
      | some pr =>
        obtain ⟨rep, rest⟩ := pr
        simp only [scanRepl, h]
        obtain ⟨mid, hl, hb⟩ := hsh _ _ _ h
        rw [hl]
        exact btIns_append hb (ih rest)

theorem contOpenTag_btIns : ∀ {u2 r2 : Cs}, BtIns u2 r2 →
    ∀ {o : Cs} {res : Cs × Cs}, contOpenTag o r2 = some res →
    ∃ res2, contOpenTag o u2 = some res2 := by
  intro u2 r2 hb o res h
  cases r2 with
  | nil => exact absurd h (by simp [contOpenTag])
  | cons c r3 =>
    simp only [contOpenTag] at h
    by_cases hc : c = '>'
    · rw [if_pos hc] at h
      by_cases hl : r3.head? = some btCh
      · rw [if_pos hl] at h; exact absurd h (by simp)
      · subst hc
        obtain ⟨u3, rfl, hb3⟩ := btIns_cons_nonbt (by decide) hb
        have hl2 : u3.head? ≠ some btCh := btIns_lookahead hb3 hl
        exact ⟨(btCh :: '<' :: o ++ '>' :: [btCh], u3), by simp [contOpenTag, hl2]⟩
    · rw [if_neg hc] at h
      by_cases hw : jsWs c
      · rw [if_pos hw] at h
        have hcb : c ≠ btCh := fun e => by rw [e, jsWs_bt] at hw; exact Bool.noConfusion hw
        obtain ⟨u3, rfl, hb3⟩ := btIns_cons_nonbt hcb hb
        rcases hsp : splitGt r3 with ⟨attr, r4⟩
        simp only [hsp] at h
        cases hex : expectGt r4 with
        | none =>
          simp only [hex] at h
          exact absurd h (by simp)
        | some r5 =>
          simp only [hex] at h
          by_cases hl : r5.head? = some btCh
          · rw [if_pos hl] at h; exact absurd h (by simp)
          · have hr4 : r4 = '>' :: r5 := expectGt_some hex
            rw [hr4] at hsp
            obtain ⟨w2, u5, hspu, hb5⟩ := splitGt_btIns hb3 hsp
            have hl5 : u5.head? ≠ some btCh := btIns_lookahead hb5 hl
            exact ⟨(btCh :: '<' :: (o ++ c :: w2 ++ ['>']) ++ [btCh], u5),
              by simp [contOpenTag, hc, hw, hspu, expectGt_cons_gt, hl5]⟩
      · rw [if_neg hw] at h
        exact absurd h (by simp)

theorem tryOpenTag_btIns {u v : Cs} (hb : BtIns u v) {c : Char} {res : Cs × Cs}
    (h : tryOpenTag (c :: v) = some res) : tryOpenTag (c :: u) ≠ none := by
  by_cases hc : c = '<'
  · subst hc
    rw [tryOpenTag_cons_lt] at h
    rw [tryOpenTag_cons_lt]
    obtain ⟨n, hn, o, r2, hci, hco⟩ := tryNamesOpen_some_ex tagNames v res h
    obtain ⟨u2, hciu, hb2⟩ := ciTok_btIns n (tagNames_no_bt n hn) hb hci
    obtain ⟨res2, hcu⟩ := contOpenTag_btIns hb2 hco
    exact tryNamesOpen_witness tagNames u n hn o u2 res2 hciu hcu
  · rw [tryOpenTag_not_lt hc] at h
    exact absurd h (by simp)

theorem tryCloseTag_nil : tryCloseTag [] = none := rfl

theorem tryCloseTag_single (c : Char) : tryCloseTag [c] = none := by
  by_cases hc : c = '<'
  · subst hc; rfl
  · simp [tryCloseTag, tryAt, hc]

theorem tryCloseTag_cons2 (c2 : Char) (r : Cs) :
    tryCloseTag ('<' :: c2 :: r) =
      if c2 = '/' then tryNamesClose tagNames r else none := rfl

theorem tryCloseTag_not_lt {c : Char} (hc : c ≠ '<') (X : Cs) :
    tryCloseTag (c :: X) = none := by
  simp [tryCloseTag, tryAt, hc]

theorem tryNamesClose_some_ex : ∀ (names : List Cs) (r : Cs) (res : Cs × Cs),
    tryNamesClose names r = some res →
    ∃ n, n ∈ names ∧ ∃ o r3, ciTok n r = some (o, '>' :: r3) ∧
      r3.head? ≠ some btCh ∧ res = (btCh :: '<' :: '/' :: o ++ '>' :: [btCh], r3) := by
  intro names
  induction names with
  | nil => intro r res h; exact absurd h (by simp [tryNamesClose])
  | cons n0 ns ih =>
    intro r res h
    cases hci : ciTok n0 r with
    | none =>
      simp only [tryNamesClose, hci] at h
      obtain ⟨n, hn, rest⟩ := ih r res h
      exact ⟨n, List.mem_cons_of_mem n0 hn, rest⟩
    | some pr =>
      obtain ⟨o, r2⟩ := pr
      simp only [tryNamesClose, hci] at h
      cases hex : expectGt r2 with
      | none =>
        simp only [hex] at h
        obtain ⟨n, hn, rest⟩ := ih r res h
        exact ⟨n, List.mem_cons_of_mem n0 hn, rest⟩
      | some r3 =>
        simp only [hex] at h
        by_cases hl : r3.head? = some btCh
        · rw [if_pos hl] at h
          obtain ⟨n, hn, rest⟩ := ih r res h
          exact ⟨n, List.mem_cons_of_mem n0 hn, rest⟩
        · rw [if_neg hl] at h
          injection h with h1
          refine ⟨n0, List.mem_cons_self n0 ns, o, r3, ?_, hl, h1.symm⟩
          rw [← expectGt_some hex]
          exact hci

theorem tryNamesClose_witness : ∀ (names : List Cs) (r n : Cs), n ∈ names →
    ∀ (o r3 : Cs), ciTok n r = some (o, '>' :: r3) → r3.head? ≠ some btCh →
    tryNamesClose names r ≠ none := by
  intro names
  induction names with
  | nil => intro r n hn; exact absurd hn (by simp)
  | cons n0 ns ih =>
    intro r n hn o r3 hci hl
    rcases List.mem_cons.mp hn with rfl | hn2
    · simp [tryNamesClose, hci, expectGt_cons_gt, hl]
    · cases hci0 : ciTok n0 r with
      | none =>
        simp only [tryNamesClose, hci0]
        exact ih r n hn2 o r3 hci hl
      | some pr =>
        obtain ⟨o0, r20⟩ := pr
        simp only [tryNamesClose, hci0]
        cases hex0 : expectGt r20 with
        | none =>
          simp only [hex0]
          exact ih r n hn2 o r3 hci hl
        | some r30 =>
          simp only [hex0]
          by_cases hl0 : r30.head? = some btCh
          · rw [if_pos hl0]
            exact ih r n hn2 o r3 hci hl
          · simp [if_neg hl0]

theorem tryCloseTag_shape : ∀ {l : Cs} {rep rest : Cs},
    tryCloseTag l = some (rep, rest) →
    ∃ body, l = '<' :: '/' :: body ++ '>' :: rest ∧
      rep = btCh :: '<' :: '/' :: body ++ '>' :: [btCh] ∧
      '>' ∉ body ∧ rest.head? ≠ some btCh := by
  intro l rep rest h
  cases l with
  | nil => exact absurd h (by simp [tryCloseTag_nil])
  | cons c cs =>
    cases cs with
    | nil =>
      rw [tryCloseTag_single] at h
      exact absurd h (by simp)
    | cons c2 r =>
      by_cases hc : c = '<'
      · subst hc
        rw [tryCloseTag_cons2] at h
        by_cases h2 : c2 = '/'
        · subst h2
          rw [if_pos rfl] at h
          obtain ⟨n, hn, o, r3, hci, hl, hres⟩ :=
            tryNamesClose_some_ex tagNames r (rep, rest) h
          obtain ⟨heq, hmem⟩ := ciTok_decomp n r o _ hci
          have ho : '>' ∉ o := by
            intro hm
            have h9 := hmem '>' hm
            rw [lcc_gt] at h9
            exact tagNames_no_gt n hn '>' h9 rfl
          injection hres with hra hrb
          subst hrb
          exact ⟨o, by rw [heq]; simp, hra, ho, hl⟩
        · rw [if_neg h2] at h
          exact absurd h (by simp)
      · rw [tryCloseTag_not_lt hc] at h
        exact absurd h (by simp)

theorem tryCloseTag_mid : ∀ (l rep rest : Cs), tryCloseTag l = some (rep, rest) →
    ∃ mid, l = mid ++ rest ∧ BtIns mid rep := by
  intro l rep rest h
  obtain ⟨body, hl, hrep, _, _⟩ := tryCloseTag_shape h
  refine ⟨'<' :: '/' :: body ++ ['>'], ?_, ?_⟩
  · rw [hl]; simp
  · rw [hrep]
    have h1 : BtIns ('<' :: '/' :: body ++ ['>'] ++ [])
        ('<' :: '/' :: body ++ ['>'] ++ [btCh]) :=
      btIns_append (btIns_refl _) (BtIns.ins BtIns.nil)
    have h2 := BtIns.ins h1
    simpa using h2

theorem tryNamesClose_wrap_none : ∀ (names : List Cs),
    (∀ n ∈ names, ∀ p ∈ n, p ≠ '>') →
    ∀ (w2 v : Cs), '>' ∉ w2 → tryNamesClose names (w2 ++ '>' :: btCh :: v) = none := by
  intro names
  induction names with
  | nil => intro _ w2 v _; simp [tryNamesClose]
  | cons n0 ns ih =>
    intro hng w2 v hw
    have ihx := ih (fun n hn => hng n (List.mem_cons_of_mem n0 hn)) w2 v hw
    cases hci : ciTok n0 (w2 ++ '>' :: btCh :: v) with
    | none =>
      simp only [tryNamesClose, hci]
      exact ihx
    | some pr =>
      obtain ⟨o, r2⟩ := pr
      obtain ⟨heq, hmem⟩ := ciTok_decomp n0 _ o r2 hci
      have ho : '>' ∉ o := by
        intro hm
        have h2 := hmem '>' hm
        rw [lcc_gt] at h2
        exact hng n0 (List.mem_cons_self n0 ns) '>' h2 rfl
      obtain ⟨w3, hw3, hr2, hnw3⟩ := append_split_gtfree heq.symm ho hw
      cases w3 with
      | nil =>
        simp only [tryNamesClose, hci, hr2, List.nil_append]
        simp [expectGt, ihx]
      | cons c3 w4 =>
        have hc3 : c3 ≠ '>' := fun e => hnw3 (by simp [e])
        simp only [tryNamesClose, hci, hr2, List.cons_append]
        simp [expectGt, hc3, ihx]

theorem tryCloseTag_after_wrap (w v : Cs) (hw : '>' ∉ w) :
    tryCloseTag (w ++ '>' :: btCh :: v) = none := by
  cases w with
  | nil => exact tryCloseTag_not_lt (by decide) _
  | cons c w2 =>
    by_cases hc : c = '<'
    · subst hc
      cases w2 with
      | nil =>
        rw [List.cons_append, List.nil_append, tryCloseTag_cons2]
        simp
      | cons c2 w3 =>
        rw [List.cons_append, List.cons_append, tryCloseTag_cons2]
        by_cases h2 : c2 = '/'
        · rw [if_pos h2]
          exact tryNamesClose_wrap_none tagNames tagNames_no_gt w3 v
            (fun m => hw (List.mem_cons_of_mem _ (List.mem_cons_of_mem _ m)))
        · rw [if_neg h2]
    · rw [List.cons_append]
      exact tryCloseTag_not_lt hc _

theorem tryCloseTag_btIns {u v : Cs} (hb : BtIns u v) {c : Char} {res : Cs × Cs}
    (h : tryCloseTag (c :: v) = some res) : tryCloseTag (c :: u) ≠ none := by
  by_cases hc : c = '<'
  · subst hc
    cases v with
    | nil =>
      rw [tryCloseTag_single] at h
      exact absurd h (by simp)
    | cons d v2 =>
      rw [tryCloseTag_cons2] at h
      by_cases hd : d = '/'
      · subst hd
        rw [if_pos rfl] at h
        obtain ⟨u2, rfl, hb2⟩ := btIns_cons_nonbt (by decide) hb
        obtain ⟨n, hn, o, r3, hci, hl, _⟩ := tryNamesClose_some_ex tagNames v2 res h
        obtain ⟨w2, hciu, hb3⟩ := ciTok_btIns n (tagNames_no_bt n hn) hb2 hci
        obtain ⟨u3, rfl, hb4⟩ := btIns_cons_nonbt (by decide) hb3
        have hl3 : u3.head? ≠ some btCh := btIns_lookahead hb4 hl
        rw [tryCloseTag_cons2, if_pos rfl]
        exact tryNamesClose_witness tagNames u2 n hn o u3 hciu hl3
      · rw [if_neg hd] at h
        exact absurd h (by simp)
  · rw [tryCloseTag_not_lt hc] at h
    exact absurd h (by simp)

theorem btIns_runRule_open (l : Cs) : BtIns l (runRule tryOpenTag l) :=
  btIns_scanRepl tryOpenTag tryOpenTag_mid (l.length + 1) l

theorem btIns_runRule_close (l : Cs) : BtIns l (runRule tryCloseTag l) :=
  btIns_scanRepl tryCloseTag tryCloseTag_mid (l.length + 1) l

theorem noM_open_scan : ∀ (fuel : Nat), ∀ (l : Cs), l.length < fuel →
    NoM tryOpenTag (scanRepl tryOpenTag fuel l) := by
  intro fuel
  induction fuel with
  | zero => intro l hl; exact absurd hl (by simp)
  | succ fuel ih =>
    intro l hl
    cases l with
    | nil =>
      intro s hs
      have h0 : s = [] := List.suffix_nil.mp hs
      subst h0
      exact tryOpenTag_nil
    | cons c cs =>
      have hcs : cs.length < fuel := by simp at hl; omega
      cases h : tryOpenTag (c :: cs) with
      | none =>
        simp only [scanRepl, h]
        intro s hs
        rcases List.suffix_cons_iff.mp hs with h1 | h1
        · subst h1
          cases h2 : tryOpenTag (c :: scanRepl tryOpenTag fuel cs) with
          | none => rfl
          | some res =>
            exact absurd h
              (tryOpenTag_btIns (btIns_scanRepl tryOpenTag tryOpenTag_mid fuel cs) h2)
        · exact ih cs hcs s h1
      | some pr =>
        obtain ⟨rep, rest⟩ := pr
        simp only [scanRepl, h]
        obtain ⟨body, hl2, hrep, hbody, _⟩ := tryOpenTag_shape h
        have hrest : rest.length < fuel := by
          have h9 : (c :: cs).length = ('<' :: body ++ '>' :: rest).length := by
            rw [hl2]
          simp at h9
          simp at hl
          omega
        intro s hs
        have hrep2 : rep ++ scanRepl tryOpenTag fuel rest
            = (btCh :: '<' :: body) ++ '>' :: btCh :: scanRepl tryOpenTag fuel rest := by
          rw [hrep]; simp
        rw [hrep2] at hs
        rcases suffix_append_cases hs with ⟨s1, hs1, rfl⟩ | h1
        · have hgt : '>' ∉ s1 := by
            intro hm
            have h9 := hs1.subset hm
            rcases List.mem_cons.mp h9 with h9 | h9
            · exact absurd h9 (by decide)
            · rcases List.mem_cons.mp h9 with h9 | h9
              · exact absurd h9 (by decide)
              · exact hbody h9
          exact tryOpenTag_after_wrap s1 _ hgt
        · rcases List.suffix_cons_iff.mp h1 with h2 | h2
          · rw [h2]
            exact tryOpenTag_not_lt (by decide) _
          · rcases List.suffix_cons_iff.mp h2 with h3 | h3
            · rw [h3]
              exact tryOpenTag_not_lt (by decide) _
            · exact ih rest hrest s h3

theorem noM_close_scan : ∀ (fuel : Nat), ∀ (l : Cs), l.length < fuel →
    NoM tryCloseTag (scanRepl tryCloseTag fuel l) := by
  intro fuel
  induction fuel with
  | zero => intro l hl; exact absurd hl (by simp)
  | succ fuel ih =>
    intro l hl
    cases l with
    | nil =>
      intro s hs
      have h0 : s = [] := List.suffix_nil.mp hs
      subst h0
      exact tryCloseTag_nil
    | cons c cs =>
      have hcs : cs.length < fuel := by simp at hl; omega
      cases h : tryCloseTag (c :: cs) with
      | none =>
        simp only [scanRepl, h]
        intro s hs
        rcases List.suffix_cons_iff.mp hs with h1 | h1
        · subst h1
          cases h2 : tryCloseTag (c :: scanRepl tryCloseTag fuel cs) with
          | none => rfl
          | some res =>
            exact absurd h
              (tryCloseTag_btIns (btIns_scanRepl tryCloseTag tryCloseTag_mid fuel cs) h2)
        · exact ih cs hcs s h1
      | some pr =>
        obtain ⟨rep, rest⟩ := pr
        simp only [scanRepl, h]
        obtain ⟨body, hl2, hrep, hbody, _⟩ := tryCloseTag_shape h
        have hrest : rest.length < fuel := by
          have h9 : (c :: cs).length = ('<' :: '/' :: body ++ '>' :: rest).length := by
            rw [hl2]
          simp at h9
          simp at hl
          omega
        intro s hs
        have hrep2 : rep ++ scanRepl tryCloseTag fuel rest
            = (btCh :: '<' :: '/' :: body) ++ '>' :: btCh :: scanRepl tryCloseTag fuel rest := by
          rw [hrep]; simp
        rw [hrep2] at hs
        rcases suffix_append_cases hs with ⟨s1, hs1, rfl⟩ | h1
        · have hgt : '>' ∉ s1 := by
            intro hm
            have h9 := hs1.subset hm
            rcases List.mem_cons.mp h9 with h9 | h9
            · exact absurd h9 (by decide)
            · rcases List.mem_cons.mp h9 with h9 | h9
              · exact absurd h9 (by decide)
              · rcases List.mem_cons.mp h9 with h9 | h9
                · exact absurd h9 (by decide)
                · exact hbody h9
          exact tryCloseTag_after_wrap s1 _ hgt
        · rcases List.suffix_cons_iff.mp h1 with h2 | h2
          · rw [h2]
            exact tryCloseTag_not_lt (by decide) _
          · rcases List.suffix_cons_iff.mp h2 with h3 | h3
            · rw [h3]
              exact tryCloseTag_not_lt (by decide) _
            · exact ih rest hrest s h3

theorem noM_open_runRule (l : Cs) : NoM tryOpenTag (runRule tryOpenTag l) :=
  noM_open_scan (l.length + 1) l (Nat.lt_succ_self _)

theorem noM_close_runRule (l : Cs) : NoM tryCloseTag (runRule tryCloseTag l) :=
  noM_close_scan (l.length + 1) l (Nat.lt_succ_self _)

theorem noM_open_btIns {u v : Cs} (hb : BtIns u v) (hu : NoM tryOpenTag u) :
    NoM tryOpenTag v := by
  intro s hs
  cases h : tryOpenTag s with
  | none => rfl
  | some res =>
    obtain ⟨rep, rest⟩ := res
    obtain ⟨body, hl, _, _, _⟩ := tryOpenTag_shape h
    rw [hl] at hs h
    obtain ⟨u2, hu2, hb2⟩ := btIns_suffix hb hs (by decide)
    exact absurd (hu _ hu2) (tryOpenTag_btIns hb2 h)

theorem escStage_idem (s : Cs) : escStage (escStage s) = escStage s := by
  have h2 : NoM tryOpenTag (escStage s) :=
    noM_open_btIns (btIns_runRule_close (runRule tryOpenTag s)) (noM_open_runRule s)
  have h3 : NoM tryCloseTag (escStage s) := noM_close_runRule (runRule tryOpenTag s)
  have e1 : runRule tryOpenTag (escStage s) = escStage s := by
    simp only [runRule]
    exact noM_scanRepl_id _ _ h2
  have e2 : runRule tryCloseTag (escStage s) = escStage s := by
    simp only [runRule]
    exact noM_scanRepl_id _ _ h3
  show runRule tryCloseTag (runRule tryOpenTag (escStage s)) = escStage s
  rw [e1, e2]

theorem escLoop_eq_escStage (md : Cs) : escLoop md = escStage md := by
  show (if escStage md = md then md
    else if escStage (escStage md) = escStage md then escStage md
    else escStage (escStage (escStage md))) = escStage md
  by_cases h1 : escStage md = md
  · rw [if_pos h1, h1]
  · rw [if_neg h1, if_pos (escStage_idem md)]

theorem escLoop_idem (md : Cs) : escLoop (escLoop md) = escLoop md := by
  rw [escLoop_eq_escStage, escLoop_eq_escStage, escStage_idem]

/-- C2 (amended): the plain-HTML-tag escape loop is idempotent on every
input — its negative lookahead skips a tag occurrence already followed by a
backtick, so a second application (indeed, already the second iteration
inside the loop) changes nothing; but the capitalized-identifier escaping
has no such guard and wraps `<Model>` again on every run, so the full
Text-Protection Pass is not idempotent. -/
theorem c2_escaping_amended :
    (∀ md : Cs, escLoop (escLoop md) = escLoop md)
    ∧ (∀ md : Cs, escStage (escLoop md) = escLoop md)
    ∧ textProtect "<div>x and </span>y".data = "`<div>`x and `</span>`y".data
    ∧ textProtect "`<div>`x and `</span>`y".data = "`<div>`x and `</span>`y".data
    ∧ textProtect "<Model>".data = "`<Model>`".data
    ∧ textProtect "`<Model>`".data = "``<Model>``".data :=
  ⟨escLoop_idem,
   fun md => by rw [escLoop_eq_escStage]; exact escStage_idem md,
   by decide, by decide, by decide, by decide⟩

end ConfluenceMigrator
